import Mathlib

/-!
Verification development for the MinesweeperAI engine
(`src/minesweeper/{tile,grid,api,game}.py` and `src/minesweeper/ai/solver.py`).

The board is shallowly embedded: a `Tile` mirrors the fields of the Python
`Tile` class (its Python `set` fields become duplicate-free lists of
coordinates), the grid is a function from coordinates to tiles, and every
board-mutating operation of the Action API is translated statement by
statement, including the callback bookkeeping that builds the
affected-tile sets of each result.  Randomness (the `shuffle` used for
mine placement and the `randrange` stream used by the solver's guess) is
passed in explicitly as oracle lists.
-/

namespace Minesweeper

abbrev Pos := Nat × Nat

/-- One cell of the board, mirroring `Tile.__init__` in `tile.py`:
`value` is `none` for unassigned or bomb tiles and `some v` otherwise,
and the two neighbour sets are kept as duplicate-free coordinate lists. -/
structure Tile where
  value : Option Int
  is_hidden : Bool
  is_flagged : Bool
  is_bomb : Bool
  hidden_neighbours : List Pos
  flagged_neighbours : List Pos
  deriving Repr, DecidableEq

/-- The eight direction offsets of `Grid.connect_neighbours`, in source order. -/
def directions : List (Int × Int) :=
  [(-1, -1), (-1, 0), (-1, 1), (0, 1), (1, 1), (1, 0), (1, -1), (0, -1)]

/-- The neighbour list of a cell, as built by `Grid.connect_neighbours`. -/
def neighbours (rows cols : Nat) (p : Pos) : List Pos :=
  directions.filterMap (fun d =>
    if 0 ≤ (p.1 : Int) + d.1 ∧ (p.1 : Int) + d.1 < (rows : Int) ∧
        0 ≤ (p.2 : Int) + d.2 ∧ (p.2 : Int) + d.2 < (cols : Int) then
      some (((p.1 : Int) + d.1).toNat, ((p.2 : Int) + d.2).toNat)
    else none)

/-- All grid coordinates in row-major order (the iteration order of
`all_tiles` in `Grid.make_grid`). -/
def positions (rows cols : Nat) : List Pos :=
  (List.range rows).flatMap (fun r => (List.range cols).map (fun c => (r, c)))

/-- A freshly constructed tile after `Grid.make_grid` and
`Grid.connect_neighbours`: hidden, unflagged, no value, and with every
neighbour in its `hidden_neighbours` set. -/
def initTile (rows cols : Nat) (p : Pos) : Tile :=
  { value := none
    is_hidden := true
    is_flagged := false
    is_bomb := false
    hidden_neighbours := neighbours rows cols p
    flagged_neighbours := [] }

inductive Status where
  | playing
  | won
  | lost
  deriving Repr, DecidableEq

/-- The combined `MinesweeperGame` / `Grid` state observable through the
Action API. -/
structure Game where
  rows : Nat
  cols : Nat
  bomb_count : Nat
  tiles : Pos → Tile
  game_status : Status
  flagged_count : Int
  revealed_count : Nat
  non_bomb_tiles_count : Nat
  bombs_placed : Bool

/-- `MinesweeperGame.setup`: fresh grid, no mines placed yet. -/
def mkGame (rows cols nBombs : Nat) : Game :=
  { rows := rows
    cols := cols
    bomb_count := nBombs
    tiles := initTile rows cols
    game_status := .playing
    flagged_count := 0
    revealed_count := 0
    non_bomb_tiles_count := rows * cols - nBombs
    bombs_placed := false }

/-- Python `set.add` on a coordinate set held as a duplicate-free list. -/
def setAdd (s : List Pos) (p : Pos) : List Pos :=
  if p ∈ s then s else p :: s

/-- Update the tile stored at one coordinate. -/
def updateTile (ts : Pos → Tile) (p : Pos) (f : Tile → Tile) : Pos → Tile :=
  fun q => if q = p then f (ts q) else ts q

/-- `Tile.on_reveal`: remove the revealed tile from the `hidden_neighbours`
set of every neighbour whose `value != 0`, reporting each changed
neighbour.  Returns the updated tile map and updated-neighbour set. -/
def on_reveal (rows cols : Nat) (p : Pos) (ts : Pos → Tile) (upd : List Pos) :
    (Pos → Tile) × List Pos :=
  (neighbours rows cols p).foldl
    (fun acc q =>
      let n := acc.1 q
      if n.value ≠ some 0 ∧ p ∈ n.hidden_neighbours then
        (updateTile acc.1 q (fun t => { t with hidden_neighbours := t.hidden_neighbours.erase p }),
         setAdd acc.2 q)
      else acc)
    (ts, upd)

/-- `Tile.on_flag`: for every neighbour whose `value != 0`, add the flagged
tile to its `flagged_neighbours` and remove it from its
`hidden_neighbours`, reporting the neighbour if anything changed. -/
def on_flag (rows cols : Nat) (p : Pos) (ts : Pos → Tile) (upd : List Pos) :
    (Pos → Tile) × List Pos :=
  (neighbours rows cols p).foldl
    (fun acc q =>
      if (acc.1 q).value = some 0 then acc
      else
        let step1 : (Pos → Tile) × Bool :=
          if p ∈ (acc.1 q).flagged_neighbours then (acc.1, false)
          else (updateTile acc.1 q (fun t => { t with flagged_neighbours := p :: t.flagged_neighbours }), true)
        let step2 : (Pos → Tile) × Bool :=
          if p ∈ (step1.1 q).hidden_neighbours then
            (updateTile step1.1 q (fun t => { t with hidden_neighbours := t.hidden_neighbours.erase p }), true)
          else (step1.1, false)
        if step1.2 ∨ step2.2 then (step2.1, setAdd acc.2 q) else (step2.1, acc.2))
    (ts, upd)

/-- `Tile.remove_flag`, translated exactly as written: it first removes the
tile from the neighbour's `flagged_neighbours`, then — because the second
conditional tests `flagged_neighbours` again instead of
`hidden_neighbours` — immediately re-adds it. -/
def remove_flag (rows cols : Nat) (p : Pos) (ts : Pos → Tile) (upd : List Pos) :
    (Pos → Tile) × List Pos :=
  (neighbours rows cols p).foldl
    (fun acc q =>
      if (acc.1 q).value = some 0 then acc
      else
        let step1 : (Pos → Tile) × Bool :=
          if p ∈ (acc.1 q).flagged_neighbours then
            (updateTile acc.1 q (fun t => { t with flagged_neighbours := t.flagged_neighbours.erase p }), true)
          else (acc.1, false)
        let step2 : (Pos → Tile) × Bool :=
          if p ∉ (step1.1 q).flagged_neighbours then
            (updateTile step1.1 q (fun t => { t with flagged_neighbours := p :: t.flagged_neighbours }), true)
          else (step1.1, false)
        if step1.2 ∨ step2.2 then (step2.1, setAdd acc.2 q) else (step2.1, acc.2))
    (ts, upd)

/-- `Tile.is_numbered`: revealed, not a bomb, positive value. -/
def is_numbered (t : Tile) : Bool :=
  !t.is_hidden && !t.is_bomb && (match t.value with | some v => 0 < v | none => false)

/-- `Tile.is_satisfied`: the value equals the size of the
`flagged_neighbours` set (`None == n` is false in Python). -/
def is_satisfied (t : Tile) : Bool :=
  match t.value with
  | some v => v = (t.flagged_neighbours.length : Int)
  | none => false

/-- `Tile.is_satisfiable`: the value equals hidden plus flagged neighbour
count. -/
def is_satisfiable (t : Tile) : Bool :=
  match t.value with
  | some v => v = ((t.hidden_neighbours.length + t.flagged_neighbours.length : Nat) : Int)
  | none => false

/-- The mutable state threaded through a reveal cascade: the tile map, the
session's `revealed_count`, and the API's `newly_revealed_tiles` and
`updated_neighbours` tracking sets (built by the two callbacks). -/
structure OpSt where
  tiles : Pos → Tile
  revealed_count : Nat
  newly_revealed : List Pos
  updated_neighbours : List Pos

/-- The BFS loop of `Tile.reveal`.  Note the source's skip condition here
tests only `tile in visited`, and the cascade enqueue tests only
`neighbour.is_hidden and neighbour not in visited` — there is no
`is_flagged` test, unlike `reveal_batch`. -/
def reveal_loop (rows cols : Nat) (fuel : Nat) (queue visited : List Pos)
    (st : OpSt) (bombRevealed : Bool) : OpSt × Bool :=
  match queue with
  | [] => (st, bombRevealed)
  | p :: rest =>
    match fuel with
    | 0 => (st, bombRevealed)
    | fuel + 1 =>
      if p ∈ visited then
        reveal_loop rows cols fuel rest visited st bombRevealed
      else
        let t := st.tiles p
        let bombRevealed := bombRevealed || t.is_bomb
        let visited := p :: visited
        let st : OpSt :=
          if t.is_hidden then
            let ts := updateTile st.tiles p (fun u => { u with is_hidden := false })
            if t.is_bomb then { st with tiles := ts }
            else
              { st with
                  tiles := ts
                  revealed_count := st.revealed_count + 1
                  newly_revealed := setAdd st.newly_revealed p }
          else st
        let res := on_reveal rows cols p st.tiles st.updated_neighbours
        let st : OpSt := { st with tiles := res.1, updated_neighbours := res.2 }
        let queue :=
          if (st.tiles p).value = some 0 then
            rest ++ (neighbours rows cols p).filter
              (fun q => (st.tiles q).is_hidden && !(decide (q ∈ visited)))
          else rest
        reveal_loop rows cols fuel queue visited st bombRevealed

/-- The BFS loop of `Tile.reveal_batch`: skips already-revealed tiles,
tracks the last bomb position, and — unlike `Tile.reveal` — excludes
flagged neighbours from the cascade. -/
def reveal_batch_loop (rows cols : Nat) (fuel : Nat) (queue visited : List Pos)
    (st : OpSt) (bombRevealed : Bool) (bombPos : Option Pos) :
    OpSt × Bool × Option Pos :=
  match queue with
  | [] => (st, bombRevealed, bombPos)
  | p :: rest =>
    match fuel with
    | 0 => (st, bombRevealed, bombPos)
    | fuel + 1 =>
      if p ∈ visited ∨ ¬ (st.tiles p).is_hidden then
        reveal_batch_loop rows cols fuel rest visited st bombRevealed bombPos
      else
        let t := st.tiles p
        let visited := p :: visited
        let bombRevealed := bombRevealed || t.is_bomb
        let bombPos := if t.is_bomb then some p else bombPos
        let ts := updateTile st.tiles p (fun u => { u with is_hidden := false })
        let st : OpSt :=
          if t.is_bomb then { st with tiles := ts }
          else
            { st with
                tiles := ts
                revealed_count := st.revealed_count + 1
                newly_revealed := setAdd st.newly_revealed p }
        let res := on_reveal rows cols p st.tiles st.updated_neighbours
        let st : OpSt := { st with tiles := res.1, updated_neighbours := res.2 }
        let queue :=
          if (st.tiles p).value = some 0 then
            rest ++ (neighbours rows cols p).filter
              (fun q => (st.tiles q).is_hidden && !(decide (q ∈ visited)) && !(st.tiles q).is_flagged)
          else rest
        reveal_batch_loop rows cols fuel queue visited st bombRevealed bombPos

/-- Fuel bound for the cascade loops: each processed tile enqueues at most
eight neighbours, so `9 * rows * cols + 9` pops always suffice. -/
def opFuel (rows cols : Nat) : Nat := 9 * rows * cols + 9

end Minesweeper

namespace Minesweeper

/-- The tagged result dictionary returned by every Action API call. -/
structure ActionResult where
  result : String
  game_status : Status
  tile_value : Option Int := none
  newly_revealed_count : Nat := 0
  bomb_position : Option Pos := none
  revealed : List Pos := []
  neighbours_updated : List Pos := []
  flagged : List Pos := []
  unflagged : List Pos := []
  flagged_count : Int := 0
  deriving Repr, DecidableEq

/-- `MinesweeperAPI._is_valid_position`. -/
def is_valid_position (g : Game) (row col : Nat) : Bool :=
  row < g.rows && col < g.cols

/-- `MinesweeperAPI.flag_tile`: rejection checks, then `Tile.flag` (toggle
plus `on_flag` / `remove_flag`), then the flag-counter update. -/
def flag_tile (g : Game) (row col : Nat) : Game × ActionResult :=
  if ¬ is_valid_position g row col then
    (g, { result := "invalid_position", game_status := g.game_status })
  else
    let p : Pos := (row, col)
    if g.game_status ≠ .playing then
      (g, { result := "game_not_active", game_status := g.game_status })
    else if ¬ (g.tiles p).is_hidden then
      (g, { result := "already_revealed", game_status := g.game_status })
    else
      let was_flagged := (g.tiles p).is_flagged
      let res :=
        if was_flagged then
          remove_flag g.rows g.cols p (updateTile g.tiles p (fun t => { t with is_flagged := false })) []
        else
          on_flag g.rows g.cols p (updateTile g.tiles p (fun t => { t with is_flagged := true })) []
      let fc := if was_flagged then g.flagged_count - 1 else g.flagged_count + 1
      let g' : Game := { g with tiles := res.1, flagged_count := fc }
      (g', { result := if was_flagged then "unflagged" else "flagged"
             game_status := g'.game_status
             flagged_count := fc
             flagged := if was_flagged then [] else [p]
             unflagged := if was_flagged then [p] else []
             neighbours_updated := res.2 })

/-- `MinesweeperGame.won`: set the status to `won`, then (as the source
does) call `flag_tile` on every hidden unflagged tile — calls that are all
rejected as `game_not_active` because the status is no longer `playing`. -/
def game_won (g : Game) : Game :=
  let g : Game := { g with game_status := .won }
  (positions g.rows g.cols).foldl
    (fun g p =>
      if (g.tiles p).is_hidden ∧ ¬ (g.tiles p).is_flagged then (flag_tile g p.1 p.2).1 else g)
    g

/-- `MinesweeperGame.lost`: set the status to `lost` and reveal every
still-hidden bomb directly, without running `on_reveal` on its
neighbours. -/
def game_lost (g : Game) : Game :=
  let ts := (positions g.rows g.cols).foldl
    (fun ts p =>
      if (ts p).is_bomb ∧ (ts p).is_hidden then
        updateTile ts p (fun t => { t with is_hidden := false })
      else ts)
    g.tiles
  { g with game_status := .lost, tiles := ts }

/-- The tiles `place_bombs_after_first_click` may place a mine on: every
tile except the clicked one and its neighbours. -/
def placeable_tiles (g : Game) (target : Pos) : List Pos :=
  (positions g.rows g.cols).filter
    (fun p => !(decide (p = target ∨ p ∈ neighbours g.rows g.cols target)))

/-- `MinesweeperGame.place_bombs_after_first_click` together with
`Grid.place_bombs` and `Grid.set_numbers`.  The `shuffle` outcome is
passed in as `order` (a permutation of `placeable_tiles g target`); the
first `bomb_count` entries become bombs, then non-bomb tiles get value 0
and every bomb increments its non-bomb neighbours. -/
def place_bombs_after_first_click (g : Game) (order : List Pos) : Game :=
  let bombs := order.take g.bomb_count
  let ts := bombs.foldl (fun ts p => updateTile ts p (fun t => { t with is_bomb := true })) g.tiles
  let ts := (positions g.rows g.cols).foldl
    (fun ts p => if p ∈ bombs then ts else updateTile ts p (fun t => { t with value := some 0 })) ts
  let ts := bombs.foldl
    (fun ts b =>
      let ts := updateTile ts b (fun t => { t with value := none })
      (neighbours g.rows g.cols b).foldl
        (fun ts q =>
          if q ∈ bombs then ts
          else updateTile ts q (fun t => { t with value := t.value.map (fun v => v + 1) }))
        ts)
    ts
  { g with tiles := ts }

/-- `MinesweeperAPI.reveal_tile`.  `order` is the shuffle oracle consumed
if this is the first click.  Note that, as in the source, first-click mine
placement runs before the `already_revealed` and `flagged` rejection
checks. -/
def reveal_tile (g : Game) (order : List Pos) (row col : Nat) : Game × ActionResult :=
  if ¬ is_valid_position g row col then
    (g, { result := "invalid_position", game_status := g.game_status })
  else
    let p : Pos := (row, col)
    if g.game_status ≠ .playing then
      (g, { result := "game_not_active", game_status := g.game_status })
    else
      let g : Game :=
        if ¬ g.bombs_placed then
          { place_bombs_after_first_click g order with bombs_placed := true }
        else g
      let t := g.tiles p
      if ¬ t.is_hidden then
        (g, { result := "already_revealed", tile_value := t.value, game_status := g.game_status })
      else if t.is_flagged then
        (g, { result := "flagged", game_status := g.game_status })
      else
        let st0 : OpSt := ⟨g.tiles, g.revealed_count, [], []⟩
        let res := reveal_loop g.rows g.cols (opFuel g.rows g.cols) [p] [] st0 false
        let st := res.1
        let newly := st.revealed_count - g.revealed_count
        let g : Game := { g with tiles := st.tiles, revealed_count := st.revealed_count }
        if res.2 then
          let g := game_lost g
          (g, { result := "bomb", game_status := .lost, bomb_position := some p
                revealed := st.newly_revealed, neighbours_updated := st.updated_neighbours })
        else if g.revealed_count = g.non_bomb_tiles_count then
          let g := game_won g
          (g, { result := "win", tile_value := (g.tiles p).value, newly_revealed_count := newly
                revealed := st.newly_revealed, neighbours_updated := st.updated_neighbours
                game_status := .won })
        else
          (g, { result := "revealed", tile_value := (g.tiles p).value, newly_revealed_count := newly
                revealed := st.newly_revealed, neighbours_updated := st.updated_neighbours
                game_status := g.game_status })

/-- `MinesweeperAPI.chord_tile`. -/
def chord_tile (g : Game) (row col : Nat) : Game × ActionResult :=
  if ¬ is_valid_position g row col then
    (g, { result := "invalid_position", game_status := g.game_status })
  else
    let p : Pos := (row, col)
    if g.game_status ≠ .playing then
      (g, { result := "game_not_active", game_status := g.game_status })
    else
      let t := g.tiles p
      if t.is_hidden ∨ ¬ is_numbered t then
        (g, { result := "not_chordable", game_status := g.game_status })
      else if ¬ is_satisfied t then
        (g, { result := "not_satisfied", game_status := g.game_status })
      else
        let to_reveal := (neighbours g.rows g.cols p).filter
          (fun q => !(g.tiles q).is_flagged && (g.tiles q).is_hidden)
        let st0 : OpSt := ⟨g.tiles, g.revealed_count, [], []⟩
        let res := reveal_batch_loop g.rows g.cols (opFuel g.rows g.cols) to_reveal [] st0 false none
        let st := res.1
        let newly := st.revealed_count - g.revealed_count
        let g : Game := { g with tiles := st.tiles, revealed_count := st.revealed_count }
        if res.2.1 then
          let g := game_lost g
          (g, { result := "bomb", game_status := .lost, bomb_position := res.2.2
                revealed := st.newly_revealed, neighbours_updated := st.updated_neighbours })
        else if g.revealed_count = g.non_bomb_tiles_count then
          let g := game_won g
          (g, { result := "win", newly_revealed_count := newly
                revealed := st.newly_revealed, neighbours_updated := st.updated_neighbours
                game_status := .won })
        else
          (g, { result := "chorded", newly_revealed_count := newly
                revealed := st.newly_revealed, neighbours_updated := st.updated_neighbours
                game_status := g.game_status })

/-- `MinesweeperAPI.restart_game` / `MinesweeperGame.restart`: rebuild a
fresh grid with the same parameters and reset every counter. -/
def restart_game (g : Game) : Game × ActionResult :=
  (mkGame g.rows g.cols g.bomb_count, { result := "restarted", game_status := .playing })

/-- Python set union on coordinate sets held as duplicate-free lists. -/
def setUnion (a b : List Pos) : List Pos :=
  b.foldl setAdd a

/-- The acceptance test of the sampling loop in
`MinesweeperSolver.open_random_tiles`: the loop resamples while
`not r_tile.is_hidden and not r_tile.is_flagged`, so it accepts the first
sample that is hidden or flagged. -/
def guess_accept (g : Game) (p : Pos) : Bool :=
  !(!(g.tiles p).is_hidden && !(g.tiles p).is_flagged)

/-- The cell on which `open_random_tiles` performs its guess, given the
stream of `randrange` samples: the first accepted sample. -/
def guess_select (g : Game) (stream : List Pos) : Option Pos :=
  stream.find? (guess_accept g)

/-- `MinesweeperSolver.open_random_tiles`: select a cell from the random
stream, reveal it through the API, and collect the affected-cell union
(empty when no sample is accepted — in the source the loop would keep
drawing — or when the game leaves `playing`). -/
def open_random_tiles (g : Game) (order stream : List Pos) : Game × List Pos :=
  match guess_select g stream with
  | none => (g, [])
  | some p =>
    let res := reveal_tile g order p.1 p.2
    if res.2.game_status ≠ .playing then (res.1, [])
    else (res.1, setUnion res.2.revealed res.2.neighbours_updated)

/-- `MinesweeperSolver.priority_level`. -/
def priority_level (t : Tile) : Nat :=
  if is_satisfied t then 0 else if is_satisfiable t then 1 else 2

end Minesweeper

namespace Minesweeper

/-! ## Concrete reachable traces used to evaluate the code -/

/-- A 1×7 board with one mine. -/
def board17 : Game := mkGame 1 7 1

/-- The 1×7 board after the player flags cell (0,2). -/
def board17Flagged : Game := (flag_tile board17 0 2).1

/-- A shuffle outcome for a first click at (0,0) on the 1×7 board: it
places the single bomb at (0,3). -/
def order17 : List Pos := [(0, 3), (0, 2), (0, 4), (0, 5), (0, 6)]

/-- The flagged 1×7 board after the first reveal at (0,0): the cascade
runs (0,0) → (0,1) → (0,2). -/
def board17Cascaded : Game × ActionResult := reveal_tile board17Flagged order17 0 0

/-- The unflagged 1×7 board after the same first reveal at (0,0). -/
def board17Base : Game := (reveal_tile board17 order17 0 0).1

/-- `board17Base` after flagging the bomb cell (0,3). -/
def board17FlagBomb : Game := (flag_tile board17Base 0 3).1

/-- `board17FlagBomb` after unflagging (0,3) again. -/
def board17UnflagBomb : Game := (flag_tile board17FlagBomb 0 3).1

/-- `board17Base` after flagging cell (0,4). -/
def board17GuessState : Game := (flag_tile board17Base 0 4).1

/-- The solver guess performed on `board17GuessState` when the random
stream draws (0,4). -/
def board17GuessRun : Game × List Pos := open_random_tiles board17GuessState [] [(0, 4)]

/-- A 1×6 board with one mine, after a first reveal at (0,0) whose shuffle
places the bomb at (0,2): the cascade reveals (0,0) and (0,1). -/
def board16Revealed : Game :=
  (reveal_tile (mkGame 1 6 1) [(0, 2), (0, 3), (0, 4), (0, 5)] 0 0).1

/-- A first-click reveal aimed at the flagged cell (0,2) of the 1×7
board; the shuffle oracle would place the bomb at (0,4). -/
def board17RejectedReveal : Game × ActionResult :=
  reveal_tile board17Flagged [(0, 4), (0, 0), (0, 5), (0, 6)] 0 2

/-- A 3×4 board with one mine. -/
def board34 : Game := mkGame 3 4 1

/-- The 3×4 board after the player flags the safe cell (0,2). -/
def board34Flagged : Game := (flag_tile board34 0 2).1

/-- A shuffle outcome for a first click at (1,0) on the 3×4 board: it
places the bomb at (1,3). -/
def order34 : List Pos := [(1, 3), (0, 2), (0, 3), (1, 2), (2, 2), (2, 3)]

/-- The flagged 3×4 board after the first reveal at (1,0): the cascade
floods the zero-valued left half, auto-revealing the flagged (0,2). -/
def board34Revealed : Game := (reveal_tile board34Flagged order34 1 0).1

/-- `board34Revealed` after chording (1,2), which is satisfied by the
flag sitting on the revealed cell (0,2): the batch reveals (0,3), the
bomb (1,3), and (2,3). -/
def board34Final : Game := (chord_tile board34Revealed 1 2).1

/-- A 4×3 board with two mines. -/
def board43 : Game := mkGame 4 3 2

/-- A shuffle outcome for a first click at (0,2) on the 4×3 board: it
places the bombs at (0,0) and (2,2). -/
def order43 : List Pos := [(0, 0), (2, 2), (1, 0), (2, 0), (2, 1), (3, 0), (3, 1), (3, 2)]

/-- The 4×3 board after revealing (0,2), (1,0) and (2,1), then flagging
both bombs (0,0) and (2,2): cell (1,1) is a revealed 2 with exactly two
flagged neighbours and exactly one hidden unflagged neighbour, (2,0). -/
def board43Pre : Game :=
  (flag_tile (flag_tile (reveal_tile (reveal_tile
    (reveal_tile board43 order43 0 2).1 [] 1 0).1 [] 2 1).1 0 0).1 2 2).1

/-- `board43Pre` after chording (1,1): the chord reveals the zero-valued
(2,0) and cascades into (3,0) and (3,1). -/
def board43Post : Game := (chord_tile board43Pre 1 1).1

/-- C2: the claim that `flagged → hidden` holds in every reachable state
is violated by the code: on the 1×7 trace the cascade of
`Tile.reveal` — whose enqueue test lacks the `is_flagged` check that
`Tile.reveal_batch` has — reveals the flagged cell (0,2) without clearing
its flag, leaving a cell that is both revealed and flagged. -/
theorem C2_flagged_cell_revealed_and_still_flagged :
    order17.Perm (placeable_tiles board17Flagged (0, 0)) ∧
    (board17Flagged.tiles (0, 2)).is_flagged = true ∧
    (board17Flagged.tiles (0, 2)).is_hidden = true ∧
    board17Cascaded.2.result = "revealed" ∧
    (board17Cascaded.1.tiles (0, 2)).is_hidden = false ∧
    (board17Cascaded.1.tiles (0, 2)).is_flagged = true := by decide

/-- C3: the claim that a reveal cascade never auto-reveals a flagged cell
is violated by the code: on the 1×7 trace, the reveal at (0,0) reports
the flagged cell (0,2) — distinct from the target — in its
newly-revealed set. -/
theorem C3_cascade_reveals_flagged_cell :
    (board17Flagged.tiles (0, 2)).is_flagged = true ∧
    (board17Flagged.tiles (0, 2)).is_hidden = true ∧
    (0, 2) ≠ ((0, 0) : Pos) ∧
    (0, 2) ∈ board17Cascaded.2.revealed ∧
    (board17Cascaded.1.tiles (0, 2)).is_flagged = true := by decide

/-- C4: the claim that unflagging inverts flagging is violated by the
code: after flagging and then unflagging the hidden cell (0,3), its
numbered neighbour (0,4) still holds (0,3) in `flagged_neighbours`
(count 1, not the original 0) and has not regained it in
`hidden_neighbours`, because `Tile.remove_flag` re-adds the tile to
`flagged_neighbours` instead of restoring `hidden_neighbours`. -/
theorem C4_unflag_does_not_invert_flag :
    (board17Base.tiles (0, 4)).value = some 1 ∧
    (board17Base.tiles (0, 4)).flagged_neighbours = [] ∧
    (0, 3) ∈ (board17Base.tiles (0, 4)).hidden_neighbours ∧
    (board17FlagBomb.tiles (0, 3)).is_flagged = true ∧
    (board17UnflagBomb.tiles (0, 3)).is_flagged = false ∧
    (board17UnflagBomb.tiles (0, 3)).is_hidden = true ∧
    (0, 3) ∈ (board17UnflagBomb.tiles (0, 4)).flagged_neighbours ∧
    (board17UnflagBomb.tiles (0, 4)).flagged_neighbours.length = 1 ∧
    (0, 3) ∉ (board17UnflagBomb.tiles (0, 4)).hidden_neighbours := by decide

/-- C1 fails as stated: after the reveal on the 1×6 trace, cell (0,3) has
value 1 but its `hidden_neighbours` set has 2 elements — it also contains
the hidden zero-valued neighbour (0,4) — while only 1 of its neighbours
is hidden with a non-zero value (the `value != 0` test in the source
selects which neighbouring set owners get updated, not which members the
sets may contain). -/
theorem C1_counterexample :
    ([(0, 2), (0, 3), (0, 4), (0, 5)] : List Pos).Perm
      (placeable_tiles (mkGame 1 6 1) (0, 0)) ∧
    (board16Revealed.tiles (0, 3)).value = some 1 ∧
    (board16Revealed.tiles (0, 3)).hidden_neighbours.length = 2 ∧
    ((neighbours 1 6 (0, 3)).filter
      (fun q => decide ((board16Revealed.tiles q).value ≠ some 0) &&
        (board16Revealed.tiles q).is_hidden)).length = 1 ∧
    (board16Revealed.tiles (0, 3)).hidden_neighbours.length ≠
      ((neighbours 1 6 (0, 3)).filter
        (fun q => decide ((board16Revealed.tiles q).value ≠ some 0) &&
          (board16Revealed.tiles q).is_hidden)).length := by decide

/-- C5 fails as stated: a first-click reveal aimed at the flagged cell
(0,2) is rejected with outcome `flagged`, yet it places the mines — cell
(0,4) goes from non-bomb to bomb and `bombs_placed` flips — because
`reveal_tile` runs first-click placement before its `already_revealed`
and `flagged` rejection checks. -/
theorem C5_counterexample :
    ([(0, 4), (0, 0), (0, 5), (0, 6)] : List Pos).Perm
      (placeable_tiles board17Flagged (0, 2)) ∧
    board17RejectedReveal.2.result = "flagged" ∧
    board17Flagged.bombs_placed = false ∧
    (board17Flagged.tiles (0, 4)).is_bomb = false ∧
    board17RejectedReveal.1.bombs_placed = true ∧
    (board17RejectedReveal.1.tiles (0, 4)).is_bomb = true := by decide

/-- C7 fails on the code: on the 3×4 trace the chord on (1,2) — which is
satisfied by a flag sitting on the already-revealed cell (0,2) — reveals
the last two hidden non-bomb cells and the bomb, ending with status
`lost` while the number of revealed non-bomb cells equals
`non_bomb_tiles_count`, so `revealed = non_bomb_count` holds without the
status being `won`. -/
theorem C7_code_evaluation :
    order34.Perm (placeable_tiles board34Flagged (1, 0)) ∧
    board34Revealed.game_status = .playing ∧
    board34Final.game_status = .lost ∧
    board34Final.revealed_count = board34Final.non_bomb_tiles_count ∧
    ((positions 3 4).filter
      (fun p => !(board34Final.tiles p).is_hidden && !(board34Final.tiles p).is_bomb)).length =
      board34Final.non_bomb_tiles_count := by decide

/-- C8 fails on the code: in `board17GuessState` the hidden unflagged
cell (0,5) is available, but the sampling loop of `open_random_tiles` —
whose resampling test is `not hidden and not flagged` instead of
`not (hidden and not flagged)` — accepts the flagged cell (0,4) drawn by
the random stream; the ensuing `reveal_tile` is rejected as `flagged`
and the guess reveals nothing at all. -/
theorem C8_code_evaluation :
    (board17GuessState.tiles (0, 5)).is_hidden = true ∧
    (board17GuessState.tiles (0, 5)).is_flagged = false ∧
    guess_select board17GuessState [(0, 4)] = some (0, 4) ∧
    (board17GuessState.tiles (0, 4)).is_flagged = true ∧
    (reveal_tile board17GuessState [] 0 4).2.result = "flagged" ∧
    (reveal_tile board17GuessState [] 0 4).2.revealed = [] ∧
    (∀ p ∈ positions 1 7,
      (board17GuessRun.1.tiles p).is_hidden = (board17GuessState.tiles p).is_hidden) ∧
    board17GuessRun.2 = [] := by decide

/-- C9 fails as stated: in `board43Pre` the cell (1,1) is a revealed 2
with exactly two flagged neighbours and exactly one hidden unflagged
neighbour, (2,0) — but because (2,0) is zero-valued, chording (1,1) also
cascades into (3,0) and (3,1), changing the hidden state of cells other
than that one neighbour. -/
theorem C9_counterexample :
    order43.Perm (placeable_tiles board43 (0, 2)) ∧
    board43Pre.game_status = .playing ∧
    (board43Pre.tiles (1, 1)).is_hidden = false ∧
    (board43Pre.tiles (1, 1)).value = some 2 ∧
    (board43Pre.tiles (1, 1)).flagged_neighbours.length = 2 ∧
    ((neighbours 4 3 (1, 1)).filter (fun q => (board43Pre.tiles q).is_flagged)).length = 2 ∧
    (neighbours 4 3 (1, 1)).filter
      (fun q => !(board43Pre.tiles q).is_flagged && (board43Pre.tiles q).is_hidden) = [(2, 0)] ∧
    (board43Pre.tiles (3, 0)).is_hidden = true ∧
    (3, 0) ≠ ((2, 0) : Pos) ∧
    (board43Post.tiles (3, 0)).is_hidden = false := by decide

end Minesweeper

namespace Minesweeper

theorem updateTile_apply_ne (ts : Pos → Tile) (p : Pos) (f : Tile → Tile) {q : Pos}
    (h : q ≠ p) : updateTile ts p f q = ts q := by
  simp [updateTile, h]

theorem updateTile_apply_self (ts : Pos → Tile) (p : Pos) (f : Tile → Tile) :
    updateTile ts p f p = f (ts p) := by
  simp [updateTile]

/-- Every tile field except `hidden_neighbours`. -/
def tileCore (t : Tile) : Option Int × Bool × Bool × Bool × List Pos :=
  (t.value, t.is_hidden, t.is_flagged, t.is_bomb, t.flagged_neighbours)

theorem on_reveal_tileCore (rows cols : Nat) (p : Pos) (ts : Pos → Tile)
    (upd : List Pos) (r : Pos) :
    tileCore ((on_reveal rows cols p ts upd).1 r) = tileCore (ts r) := by
  unfold on_reveal
  generalize neighbours rows cols p = l
  induction l generalizing ts upd with
  | nil => rfl
  | cons q l ih =>
    simp only [List.foldl_cons]
    by_cases hc : (ts q).value ≠ some 0 ∧ p ∈ (ts q).hidden_neighbours
    · rw [if_pos hc, ih]
      by_cases hr : r = q
      · subst hr; rw [updateTile_apply_self]; rfl
      · rw [updateTile_apply_ne _ _ _ hr]
    · rw [if_neg hc]
      exact ih ts upd

end Minesweeper

namespace Minesweeper

/-- C10: chording a revealed numbered cell that is satisfied but has no
hidden unflagged neighbour is a successful no-op, not a rejection: on a
playing session that the empty batch does not win, it returns outcome
`chorded` with `newly_revealed_count = 0` and empty affected-cell sets,
and the game state is exactly unchanged. -/
theorem C10_chord_satisfied_noop (g : Game) (row col : Nat)
    (hv : is_valid_position g row col = true)
    (hs : g.game_status = .playing)
    (hh : (g.tiles (row, col)).is_hidden = false)
    (hn : is_numbered (g.tiles (row, col)) = true)
    (hsat : is_satisfied (g.tiles (row, col)) = true)
    (hempty : (neighbours g.rows g.cols (row, col)).filter
      (fun q => !(g.tiles q).is_flagged && (g.tiles q).is_hidden) = [])
    (hcount : g.revealed_count ≠ g.non_bomb_tiles_count) :
    (chord_tile g row col).1 = g ∧
    (chord_tile g row col).2.result = "chorded" ∧
    (chord_tile g row col).2.newly_revealed_count = 0 ∧
    (chord_tile g row col).2.revealed = [] ∧
    (chord_tile g row col).2.neighbours_updated = [] := by
  simp only [chord_tile, hv, hs, hh, hn, hsat, hempty, reveal_batch_loop, not_true, ne_eq,
    Bool.true_eq_false, or_self, if_false, ite_false, not_false_eq_true, if_true, ite_true,
    eq_self_iff_true, Bool.false_eq_true, if_neg hcount, Nat.sub_self]
  refine ⟨?_, trivial, trivial, trivial, trivial⟩
  rw [← hs]

end Minesweeper

namespace Minesweeper

theorem on_reveal_is_hidden (rows cols : Nat) (p : Pos) (ts : Pos → Tile)
    (upd : List Pos) (r : Pos) :
    ((on_reveal rows cols p ts upd).1 r).is_hidden = (ts r).is_hidden :=
  congrArg (fun x => x.2.1) (on_reveal_tileCore rows cols p ts upd r)

theorem on_reveal_value (rows cols : Nat) (p : Pos) (ts : Pos → Tile)
    (upd : List Pos) (r : Pos) :
    ((on_reveal rows cols p ts upd).1 r).value = (ts r).value :=
  congrArg (fun x => x.1) (on_reveal_tileCore rows cols p ts upd r)

theorem on_reveal_is_flagged (rows cols : Nat) (p : Pos) (ts : Pos → Tile)
    (upd : List Pos) (r : Pos) :
    ((on_reveal rows cols p ts upd).1 r).is_flagged = (ts r).is_flagged :=
  congrArg (fun x => x.2.2.1) (on_reveal_tileCore rows cols p ts upd r)

theorem on_reveal_is_bomb (rows cols : Nat) (p : Pos) (ts : Pos → Tile)
    (upd : List Pos) (r : Pos) :
    ((on_reveal rows cols p ts upd).1 r).is_bomb = (ts r).is_bomb :=
  congrArg (fun x => x.2.2.2.1) (on_reveal_tileCore rows cols p ts upd r)

theorem on_reveal_flagged_neighbours (rows cols : Nat) (p : Pos) (ts : Pos → Tile)
    (upd : List Pos) (r : Pos) :
    ((on_reveal rows cols p ts upd).1 r).flagged_neighbours = (ts r).flagged_neighbours :=
  congrArg (fun x => x.2.2.2.2) (on_reveal_tileCore rows cols p ts upd r)

/-- A flag call on a session that is not `playing` is rejected and leaves
the state untouched. -/
theorem flag_tile_not_playing (g : Game) (row col : Nat) (h : g.game_status ≠ .playing) :
    (flag_tile g row col).1 = g := by
  unfold flag_tile
  by_cases hv : is_valid_position g row col = true
  · simp [hv, h]
  · simp [hv]

/-- `MinesweeperGame.won` only changes the status: every flag call it
issues is rejected because the status is already `won`. -/
theorem game_won_eq (g : Game) : game_won g = { g with game_status := .won } := by
  unfold game_won
  have key : ∀ (l : List Pos) (h : Game), h.game_status = .won →
      l.foldl (fun h p =>
        if (h.tiles p).is_hidden ∧ ¬ (h.tiles p).is_flagged then (flag_tile h p.1 p.2).1 else h) h = h := by
    intro l
    induction l with
    | nil => intro h _; rfl
    | cons q l ih =>
      intro h hw
      simp only [List.foldl_cons]
      by_cases hc : (h.tiles q).is_hidden = true ∧ ¬ (h.tiles q).is_flagged = true
      · rw [if_pos hc, flag_tile_not_playing _ _ _ (by rw [hw]; exact fun hcon => by cases hcon)]
        exact ih h hw
      · rw [if_neg hc]
        exact ih h hw
  exact key _ _ rfl

end Minesweeper

namespace Minesweeper

/-- C9 (amended): chording a revealed numbered cell of value 2 with two
flags placed and exactly one hidden unflagged neighbour `n` reveals
exactly `n` and changes no other cell's hidden state, provided `n` is
not a bomb and — the condition the original claim omits — `n` is not
zero-valued (a zero-valued `n` cascades further). -/
theorem C9_amended (g : Game) (row col : Nat) (n : Pos)
    (hv : is_valid_position g row col = true)
    (hs : g.game_status = .playing)
    (hh : (g.tiles (row, col)).is_hidden = false)
    (hn : is_numbered (g.tiles (row, col)) = true)
    (hval : (g.tiles (row, col)).value = some 2)
    (hsat : (g.tiles (row, col)).flagged_neighbours.length = 2)
    (hone : (neighbours g.rows g.cols (row, col)).filter
      (fun q => !(g.tiles q).is_flagged && (g.tiles q).is_hidden) = [n])
    (hnb : (g.tiles n).is_bomb = false)
    (hnv : (g.tiles n).value ≠ some 0) :
    (chord_tile g row col).2.revealed = [n] ∧
    ((chord_tile g row col).1.tiles n).is_hidden = false ∧
    ∀ p, p ≠ n → ((chord_tile g row col).1.tiles p).is_hidden = (g.tiles p).is_hidden := by
  have hsat' : is_satisfied (g.tiles (row, col)) = true := by
    unfold is_satisfied
    rw [hval, hsat]
    rfl
  have hfuel : opFuel g.rows g.cols = (9 * g.rows * g.cols + 8) + 1 := rfl
  have hnh : (g.tiles n).is_hidden = true := by
    have : n ∈ (neighbours g.rows g.cols (row, col)).filter
        (fun q => !(g.tiles q).is_flagged && (g.tiles q).is_hidden) := by
      rw [hone]; exact List.mem_singleton_self n
    have := (List.mem_filter.mp this).2
    simp only [Bool.and_eq_true] at this
    exact this.2
  simp only [chord_tile, hv, hs, hh, hn, hsat', hone, not_true, ne_eq, Bool.true_eq_false,
    or_self, if_false, ite_false, not_false_eq_true, if_true, ite_true, eq_self_iff_true,
    Bool.false_eq_true]
  rw [hfuel]
  simp only [reveal_batch_loop, List.not_mem_nil, false_or, hnh, not_true, ite_false,
    Bool.false_eq_true, if_false, hnb, Bool.or_false, Bool.false_or, on_reveal_value,
    updateTile_apply_self, setAdd, if_neg hnv]
  by_cases hw : g.revealed_count + 1 = g.non_bomb_tiles_count
  · rw [if_pos hw]
    refine ⟨rfl, ?_, ?_⟩
    · rw [game_won_eq]
      dsimp only
      rw [on_reveal_is_hidden, updateTile_apply_self]
    · intro p hp
      rw [game_won_eq]
      dsimp only
      rw [on_reveal_is_hidden, updateTile_apply_ne _ _ _ hp]
  · rw [if_neg hw]
    refine ⟨rfl, ?_, ?_⟩
    · dsimp only
      rw [on_reveal_is_hidden, updateTile_apply_self]
    · intro p hp
      dsimp only
      rw [on_reveal_is_hidden, updateTile_apply_ne _ _ _ hp]

end Minesweeper

namespace Minesweeper

theorem mem_positions {rows cols : Nat} {p : Pos} :
    p ∈ positions rows cols ↔ p.1 < rows ∧ p.2 < cols := by
  obtain ⟨r, c⟩ := p
  simp only [positions, List.mem_flatMap, List.mem_map, List.mem_range, Prod.mk.injEq]
  constructor
  · rintro ⟨a, ha, b, hb, h1, h2⟩
    subst h1; subst h2
    exact ⟨ha, hb⟩
  · rintro ⟨h1, h2⟩
    exact ⟨r, h1, c, h2, rfl, rfl⟩

theorem positions_nodup (rows cols : Nat) : (positions rows cols).Nodup := by
  unfold positions
  rw [List.nodup_flatMap]
  constructor
  · intro r _
    exact (List.nodup_range cols).map (fun a b h => ((Prod.mk.injEq _ _ _ _).mp h).2)
  · refine List.Pairwise.imp ?_ (List.nodup_range rows)
    intro a b hab x hxa hxb
    rcases List.mem_map.mp hxa with ⟨c, _, hc⟩
    rcases List.mem_map.mp hxb with ⟨c', _, hc'⟩
    apply hab
    rw [← hc] at hc'
    exact (((Prod.mk.injEq _ _ _ _).mp hc').1).symm

theorem mem_neighbours {rows cols : Nat} {p q : Pos} (hp1 : p.1 < rows) (hp2 : p.2 < cols) :
    q ∈ neighbours rows cols p ↔
      q.1 < rows ∧ q.2 < cols ∧ (q.1 ≠ p.1 ∨ q.2 ≠ p.2) ∧
      ((p.1 : Int) - q.1).natAbs ≤ 1 ∧ ((p.2 : Int) - q.2).natAbs ≤ 1 := by
  obtain ⟨a, b⟩ := p
  obtain ⟨x, y⟩ := q
  simp only [neighbours, List.mem_filterMap]
  constructor
  · rintro ⟨d, hd, hf⟩
    fin_cases hd <;>
      · dsimp only at hf
        split at hf
        · rename_i hcond
          injection hf with hf
          obtain ⟨h1, h2⟩ := (Prod.mk.injEq _ _ _ _).mp hf
          refine ⟨by omega, by omega, ?_, by omega, by omega⟩
          dsimp only
          omega
        · exact absurd hf (by simp)
  · rintro ⟨h1, h2, h3, h4, h5⟩
    refine ⟨((x : Int) - a, (y : Int) - b), ?_, ?_⟩
    · have hx : (x : Int) - a = -1 ∨ (x : Int) - a = 0 ∨ (x : Int) - a = 1 := by omega
      have hy : (y : Int) - b = -1 ∨ (y : Int) - b = 0 ∨ (y : Int) - b = 1 := by omega
      rcases hx with hx | hx | hx <;> rcases hy with hy | hy | hy <;>
        first
          | (rcases h3 with h | h <;> omega)
          | (rw [hx, hy]; decide)
    · dsimp only
      split
      · simp only [Option.some.injEq, Prod.mk.injEq]
        constructor <;> omega
      · rename_i hcond
        exact (hcond ⟨by omega, by omega, by omega, by omega⟩).elim

end Minesweeper

namespace Minesweeper

theorem neighbours_nodup (rows cols : Nat) (p : Pos) : (neighbours rows cols p).Nodup := by
  unfold neighbours
  refine List.Nodup.filterMap ?_ (by decide)
  intro d1 d2 q h1 h2
  rw [Option.mem_def] at h1 h2
  obtain ⟨u1, u2⟩ := d1
  obtain ⟨w1, w2⟩ := d2
  dsimp only at h1 h2
  split at h1
  · rename_i hc1
    injection h1 with h1
    split at h2
    · rename_i hc2
      injection h2 with h2
      rw [← h2] at h1
      obtain ⟨e1, e2⟩ := (Prod.mk.injEq _ _ _ _).mp h1
      obtain ⟨a1, a2, a3, a4⟩ := hc1
      obtain ⟨b1, b2, b3, b4⟩ := hc2
      have : u1 = w1 := by omega
      have : u2 = w2 := by omega
      simp_all
    · exact absurd h2 (by simp)
  · exact absurd h1 (by simp)

theorem mem_neighbours_symm {rows cols : Nat} {p q : Pos}
    (hp1 : p.1 < rows) (hp2 : p.2 < cols) (hq1 : q.1 < rows) (hq2 : q.2 < cols) :
    q ∈ neighbours rows cols p ↔ p ∈ neighbours rows cols q := by
  rw [mem_neighbours hp1 hp2, mem_neighbours hq1 hq2]
  constructor
  · rintro ⟨h1, h2, h3, h4, h5⟩
    refine ⟨hp1, hp2, ?_, by omega, by omega⟩
    rcases h3 with h | h
    · exact Or.inl (Ne.symm h)
    · exact Or.inr (Ne.symm h)
  · rintro ⟨h1, h2, h3, h4, h5⟩
    refine ⟨hq1, hq2, ?_, by omega, by omega⟩
    rcases h3 with h | h
    · exact Or.inl (Ne.symm h)
    · exact Or.inr (Ne.symm h)

/-- Members of a neighbour list are in-bounds positions. -/
theorem mem_positions_of_mem_neighbours {rows cols : Nat} {p q : Pos}
    (hp1 : p.1 < rows) (hp2 : p.2 < cols) (h : q ∈ neighbours rows cols p) :
    q ∈ positions rows cols := by
  rw [mem_neighbours hp1 hp2] at h
  exact mem_positions.mpr ⟨h.1, h.2.1⟩

/-- A fold of per-position updates over a duplicate-free list acts
pointwise. -/
theorem foldl_pointwise (step : (Pos → Tile) → Pos → (Pos → Tile)) (σ : Pos → Tile → Tile)
    (hself : ∀ ts p, step ts p p = σ p (ts p))
    (hother : ∀ ts p r, r ≠ p → step ts p r = ts r)
    (l : List Pos) (hl : l.Nodup) (ts : Pos → Tile) (r : Pos) :
    (l.foldl step ts) r = if r ∈ l then σ r (ts r) else ts r := by
  induction l generalizing ts with
  | nil => simp
  | cons q l ih =>
    simp only [List.foldl_cons]
    rcases List.nodup_cons.mp hl with ⟨hq, hl'⟩
    by_cases hr : r = q
    · subst hr
      rw [ih hl', if_neg hq, hself, if_pos (List.mem_cons_self _ _)]
    · rw [ih hl']
      by_cases hm : r ∈ l
      · rw [if_pos hm, if_pos (List.mem_cons_of_mem _ hm), hother _ _ _ hr]
      · rw [if_neg hm, if_neg (by simp [hr, hm]), hother _ _ _ hr]

end Minesweeper

namespace Minesweeper

theorem mem_placeable {g : Game} {target p : Pos} :
    p ∈ placeable_tiles g target ↔
      p ∈ positions g.rows g.cols ∧ ¬(p = target ∨ p ∈ neighbours g.rows g.cols target) := by
  unfold placeable_tiles
  rw [List.mem_filter]
  simp

theorem placeable_nodup (g : Game) (target : Pos) : (placeable_tiles g target).Nodup :=
  (positions_nodup g.rows g.cols).filter _

/-- Every tile field except `value`. -/
def tileView (t : Tile) : Bool × Bool × Bool × List Pos × List Pos :=
  (t.is_hidden, t.is_flagged, t.is_bomb, t.hidden_neighbours, t.flagged_neighbours)

/-- The bomb-increment pass of `set_numbers` (value fields only). -/
theorem incr_fold_apply (bombs : List Pos) (l : List Pos) (hl : l.Nodup)
    (ts : Pos → Tile) (r : Pos) :
    (l.foldl (fun ts q =>
        if q ∈ bombs then ts
        else updateTile ts q (fun t => { t with value := t.value.map (fun v => v + 1) })) ts) r =
      if r ∈ l ∧ r ∉ bombs then
        { ts r with value := (ts r).value.map (fun v => v + 1) }
      else ts r := by
  have h := foldl_pointwise
    (fun ts q =>
      if q ∈ bombs then ts
      else updateTile ts q (fun t => { t with value := t.value.map (fun v => v + 1) }))
    (fun q t => if q ∈ bombs then t else { t with value := t.value.map (fun v => v + 1) })
    (fun ts p => by
      dsimp only
      by_cases hp : p ∈ bombs
      · rw [if_pos hp, if_pos hp]
      · rw [if_neg hp, if_neg hp, updateTile_apply_self])
    (fun ts p r hr => by
      dsimp only
      by_cases hp : p ∈ bombs
      · rw [if_pos hp]
      · rw [if_neg hp, updateTile_apply_ne _ _ _ hr])
    l hl ts r
  rw [h]
  by_cases hm : r ∈ l
  · by_cases hb : r ∈ bombs
    · rw [if_pos hm, if_pos hb, if_neg (by simp [hb])]
    · rw [if_pos hm, if_neg hb, if_pos ⟨hm, hb⟩]
  · rw [if_neg hm, if_neg (by simp [hm])]

end Minesweeper

namespace Minesweeper

theorem tile_eq_of_view_value {t u : Tile} (hv : tileView t = tileView u)
    (hval : t.value = u.value) : t = u := by
  obtain ⟨v1, h1, f1, b1, hn1, fn1⟩ := t
  obtain ⟨v2, h2, f2, b2, hn2, fn2⟩ := u
  simp only [tileView, Prod.mk.injEq] at hv
  simp only at hval
  simp_all

/-- The per-bomb pass of `set_numbers` leaves every field except `value`
unchanged. -/
theorem bombs_fold_tileView (rows cols : Nat) (bombs : List Pos) (l : List Pos)
    (ts : Pos → Tile) (r : Pos) :
    tileView ((l.foldl (fun ts b =>
        let ts := updateTile ts b (fun t => { t with value := none })
        (neighbours rows cols b).foldl
          (fun ts q =>
            if q ∈ bombs then ts
            else updateTile ts q (fun t => { t with value := t.value.map (fun v => v + 1) }))
          ts) ts) r) = tileView (ts r) := by
  induction l generalizing ts with
  | nil => rfl
  | cons b l ih =>
    simp only [List.foldl_cons]
    rw [ih]
    rw [incr_fold_apply _ _ (neighbours_nodup rows cols b)]
    by_cases hm : r ∈ neighbours rows cols b ∧ r ∉ bombs
    · rw [if_pos hm]
      by_cases hr : r = b
      · subst hr
        rw [updateTile_apply_self]
        rfl
      · rw [updateTile_apply_ne _ _ _ hr]
        rfl
    · rw [if_neg hm]
      by_cases hr : r = b
      · subst hr
        rw [updateTile_apply_self]
        rfl
      · rw [updateTile_apply_ne _ _ _ hr]

/-- The `value` field produced by the per-bomb pass of `set_numbers`. -/
theorem bombs_fold_value (rows cols : Nat) (bombs : List Pos) (l : List Pos)
    (hsub : ∀ b ∈ l, b ∈ bombs) (ts : Pos → Tile) (r : Pos) :
    ((l.foldl (fun ts b =>
        let ts := updateTile ts b (fun t => { t with value := none })
        (neighbours rows cols b).foldl
          (fun ts q =>
            if q ∈ bombs then ts
            else updateTile ts q (fun t => { t with value := t.value.map (fun v => v + 1) }))
          ts) ts) r).value =
      if r ∈ bombs then (if r ∈ l then none else (ts r).value)
      else (ts r).value.map
        (fun v => v + (l.countP (fun b => decide (r ∈ neighbours rows cols b)) : Int)) := by
  induction l generalizing ts with
  | nil =>
    by_cases hb : r ∈ bombs
    · simp [hb]
    · simp only [List.foldl_nil, if_neg hb, List.countP_nil]
      cases (ts r).value <;> simp
  | cons b l ih =>
    have hb_mem : b ∈ bombs := hsub b (List.mem_cons_self _ _)
    simp only [List.foldl_cons]
    rw [ih (fun x hx => hsub x (List.mem_cons_of_mem _ hx))]
    by_cases hb : r ∈ bombs
    · rw [if_pos hb, if_pos hb]
      by_cases hl : r ∈ l
      · rw [if_pos hl, if_pos (List.mem_cons_of_mem _ hl)]
      · rw [if_neg hl]
        rw [incr_fold_apply _ _ (neighbours_nodup rows cols b), if_neg (fun h => h.2 hb)]
        by_cases hrb : r = b
        · subst hrb
          rw [updateTile_apply_self, if_pos (List.mem_cons_self _ _)]
        · rw [updateTile_apply_ne _ _ _ hrb, if_neg (by simp [hrb, hl])]
    · rw [if_neg hb, if_neg hb]
      rw [incr_fold_apply _ _ (neighbours_nodup rows cols b)]
      have hrb : r ≠ b := fun h => hb (h ▸ hb_mem)
      by_cases hm : r ∈ neighbours rows cols b
      · rw [if_pos ⟨hm, hb⟩]
        rw [updateTile_apply_ne _ _ _ hrb]
        simp only [List.countP_cons, decide_eq_true_eq, if_pos hm]
        cases (ts r).value with
        | none => rfl
        | some v =>
          dsimp only [Option.map]
          congr 1
          push_cast
          ring
      · rw [if_neg (fun h => hm h.1)]
        rw [updateTile_apply_ne _ _ _ hrb]
        simp only [List.countP_cons, decide_eq_true_eq, if_neg hm]
        rfl

end Minesweeper

namespace Minesweeper

theorem set_bombs_fold_apply (bombs : List Pos) (hnd : bombs.Nodup) (ts : Pos → Tile) (r : Pos) :
    (bombs.foldl (fun ts p => updateTile ts p (fun t => { t with is_bomb := true })) ts) r =
      if r ∈ bombs then { ts r with is_bomb := true } else ts r :=
  foldl_pointwise _ (fun _ t => { t with is_bomb := true })
    (fun ts p => updateTile_apply_self ts p _)
    (fun ts p _s hr => updateTile_apply_ne ts p _ hr) bombs hnd ts r

theorem set_zero_fold_apply (bombs : List Pos) (l : List Pos) (hl : l.Nodup)
    (ts : Pos → Tile) (r : Pos) :
    (l.foldl (fun ts p =>
        if p ∈ bombs then ts else updateTile ts p (fun t => { t with value := some 0 })) ts) r =
      if r ∈ l ∧ r ∉ bombs then { ts r with value := some 0 } else ts r := by
  have h := foldl_pointwise
    (fun ts p => if p ∈ bombs then ts else updateTile ts p (fun t => { t with value := some 0 }))
    (fun p t => if p ∈ bombs then t else { t with value := some 0 })
    (fun ts p => by
      dsimp only
      by_cases hp : p ∈ bombs
      · rw [if_pos hp, if_pos hp]
      · rw [if_neg hp, if_neg hp, updateTile_apply_self])
    (fun ts p r hr => by
      dsimp only
      by_cases hp : p ∈ bombs
      · rw [if_pos hp]
      · rw [if_neg hp, updateTile_apply_ne _ _ _ hr])
    l hl ts r
  rw [h]
  by_cases hm : r ∈ l
  · by_cases hb : r ∈ bombs
    · rw [if_pos hm, if_pos hb, if_neg (by simp [hb])]
    · rw [if_pos hm, if_neg hb, if_pos ⟨hm, hb⟩]
  · rw [if_neg hm, if_neg (by simp [hm])]

/-- How many members of `bombs` are neighbours of `r`. -/
def bombNeighbourCount (rows cols : Nat) (bombs : List Pos) (r : Pos) : Nat :=
  bombs.countP (fun b => decide (r ∈ neighbours rows cols b))

/-- Pointwise effect of first-click mine placement and numbering on every
in-bounds tile: members of the chosen bomb list become bombs with value
`none`; every other cell keeps its fields and gets as value the number of
chosen bombs among its neighbours. -/
theorem place_bombs_tiles_apply (g : Game) (order : List Pos)
    (hnd : (order.take g.bomb_count).Nodup) (r : Pos)
    (hr : r ∈ positions g.rows g.cols) :
    (place_bombs_after_first_click g order).tiles r =
      if r ∈ order.take g.bomb_count then
        { g.tiles r with is_bomb := true, value := none }
      else
        { g.tiles r with value := some (bombNeighbourCount g.rows g.cols (order.take g.bomb_count) r : Int) } := by
  unfold place_bombs_after_first_click
  dsimp only
  refine tile_eq_of_view_value ?_ ?_
  · rw [bombs_fold_tileView]
    rw [set_zero_fold_apply _ _ (positions_nodup g.rows g.cols)]
    rw [set_bombs_fold_apply _ hnd]
    by_cases hb : r ∈ order.take g.bomb_count
    · rw [if_pos hb, if_neg (by simp [hb]), if_pos hb]
      rfl
    · rw [if_neg hb, if_pos ⟨hr, hb⟩, if_neg hb]
      rfl
  · rw [bombs_fold_value _ _ _ _ (fun b hb => hb)]
    by_cases hb : r ∈ order.take g.bomb_count
    · rw [if_pos hb, if_pos hb, if_pos hb]
    · rw [if_neg hb, if_neg hb, set_zero_fold_apply _ _ (positions_nodup g.rows g.cols),
        if_pos ⟨hr, hb⟩, set_bombs_fold_apply _ hnd, if_neg hb]
      dsimp only [Option.map, bombNeighbourCount]
      congr 1
      omega

end Minesweeper

namespace Minesweeper

/-- Every tile field except `is_hidden` and `hidden_neighbours`. -/
def tileStat (t : Tile) : Option Int × Bool × Bool × List Pos :=
  (t.value, t.is_flagged, t.is_bomb, t.flagged_neighbours)

theorem on_reveal_tileStat (rows cols : Nat) (p : Pos) (ts : Pos → Tile)
    (upd : List Pos) (r : Pos) :
    tileStat ((on_reveal rows cols p ts upd).1 r) = tileStat (ts r) :=
  congrArg (fun x => (x.1, x.2.2.1, x.2.2.2.1, x.2.2.2.2)) (on_reveal_tileCore rows cols p ts upd r)

/-- The cascade of `Tile.reveal` changes only `is_hidden` flags and
`hidden_neighbours` sets. -/
theorem reveal_loop_tileStat (rows cols : Nat) (fuel : Nat) :
    ∀ (queue visited : List Pos) (st : OpSt) (b : Bool) (r : Pos),
    tileStat (((reveal_loop rows cols fuel queue visited st b).1).tiles r) =
      tileStat (st.tiles r) := by
  induction fuel with
  | zero =>
    intro queue visited st b r
    cases queue <;> rfl
  | succ n ih =>
    intro queue visited st b r
    cases queue with
    | nil => rfl
    | cons p rest =>
      rw [reveal_loop]
      by_cases hv : p ∈ visited
      · rw [if_pos hv]
        exact ih rest visited st b r
      · rw [if_neg hv]
        dsimp only
        rw [ih]
        dsimp only
        rw [on_reveal_tileStat]
        by_cases hh : (st.tiles p).is_hidden
        · rw [if_pos hh]
          by_cases hb : (st.tiles p).is_bomb
          · rw [if_pos hb]
            dsimp only
            by_cases hr : r = p
            · subst hr
              rw [updateTile_apply_self]
              rfl
            · rw [updateTile_apply_ne _ _ _ hr]
          · rw [if_neg hb]
            dsimp only
            by_cases hr : r = p
            · subst hr
              rw [updateTile_apply_self]
              rfl
            · rw [updateTile_apply_ne _ _ _ hr]
        · rw [if_neg hh]

/-- The cascade of `Tile.reveal_batch` changes only `is_hidden` flags and
`hidden_neighbours` sets. -/
theorem reveal_batch_loop_tileStat (rows cols : Nat) (fuel : Nat) :
    ∀ (queue visited : List Pos) (st : OpSt) (b : Bool) (bp : Option Pos) (r : Pos),
    tileStat (((reveal_batch_loop rows cols fuel queue visited st b bp).1).tiles r) =
      tileStat (st.tiles r) := by
  induction fuel with
  | zero =>
    intro queue visited st b bp r
    cases queue <;> rfl
  | succ n ih =>
    intro queue visited st b bp r
    cases queue with
    | nil => rfl
    | cons p rest =>
      rw [reveal_batch_loop]
      by_cases hv : p ∈ visited ∨ ¬ (st.tiles p).is_hidden = true
      · rw [if_pos hv]
        exact ih rest visited st b bp r
      · rw [if_neg hv]
        dsimp only
        rw [ih]
        dsimp only
        rw [on_reveal_tileStat]
        by_cases hb : (st.tiles p).is_bomb
        · rw [if_pos hb]
          dsimp only
          by_cases hr : r = p
          · subst hr
            rw [updateTile_apply_self]
            rfl
          · rw [updateTile_apply_ne _ _ _ hr]
        · rw [if_neg hb]
          dsimp only
          by_cases hr : r = p
          · subst hr
            rw [updateTile_apply_self]
            rfl
          · rw [updateTile_apply_ne _ _ _ hr]

/-- `MinesweeperGame.lost` changes only the status and `is_hidden` flags. -/
theorem game_lost_tileStat (g : Game) (r : Pos) :
    tileStat ((game_lost g).tiles r) = tileStat (g.tiles r) := by
  unfold game_lost
  dsimp only
  rw [foldl_pointwise _
    (fun p t => if t.is_bomb ∧ t.is_hidden then { t with is_hidden := false } else t)
    (fun ts p => by
      dsimp only
      by_cases hc : (ts p).is_bomb = true ∧ (ts p).is_hidden = true
      · rw [if_pos hc, if_pos hc, updateTile_apply_self]
      · rw [if_neg hc, if_neg hc])
    (fun ts p r hr => by
      by_cases hc : (ts p).is_bomb = true ∧ (ts p).is_hidden = true
      · rw [if_pos hc, updateTile_apply_ne _ _ _ hr]
      · rw [if_neg hc])
    _ (positions_nodup g.rows g.cols)]
  by_cases hm : r ∈ positions g.rows g.cols
  · rw [if_pos hm]
    by_cases hc : (g.tiles r).is_bomb ∧ (g.tiles r).is_hidden
    · rw [if_pos hc]
      rfl
    · rw [if_neg hc]
  · rw [if_neg hm]

end Minesweeper

namespace Minesweeper

/-- A first-click reveal leaves every `value`, `is_flagged`, `is_bomb` and
`flagged_neighbours` field exactly as mine placement computed them. -/
theorem reveal_tile_tileStat (g : Game) (order : List Pos) (row col : Nat)
    (hv : is_valid_position g row col = true)
    (hs : g.game_status = .playing)
    (hbp : g.bombs_placed = false) (r : Pos) :
    tileStat ((reveal_tile g order row col).1.tiles r) =
      tileStat ((place_bombs_after_first_click g order).tiles r) := by
  unfold reveal_tile
  simp only [hv, hs, hbp, not_true, ne_eq, if_false, ite_false, not_false_eq_true, if_true,
    ite_true, eq_self_iff_true, Bool.false_eq_true, not_true_eq_false]
  split
  · rfl
  split
  · rfl
  split
  · rw [game_lost_tileStat]
    dsimp only
    rw [reveal_loop_tileStat]
  · split
    · rw [game_won_eq]
      dsimp only
      rw [reveal_loop_tileStat]
    · dsimp only
      rw [reveal_loop_tileStat]

end Minesweeper

namespace Minesweeper

/-- C6: the first reveal of a session on a valid cell places exactly
`bomb_count` mines, all chosen from the placeable cells (outside the
clicked cell and its neighbours); afterwards neither the clicked cell
nor any of its neighbours is a bomb, and every in-bounds cell's number
is already computed: `None` on bombs, the count of adjacent bombs
otherwise.  `order` stands for the source's shuffle outcome: any
permutation of the placeable list with at least `bomb_count` cells. -/
theorem C6_first_reveal_placement (g : Game) (order : List Pos) (row col : Nat)
    (hv : is_valid_position g row col = true)
    (hs : g.game_status = .playing)
    (hbp : g.bombs_placed = false)
    (hperm : order.Perm (placeable_tiles g (row, col)))
    (hcount : g.bomb_count ≤ order.length)
    (hnb : ∀ p ∈ positions g.rows g.cols, (g.tiles p).is_bomb = false) :
    ((positions g.rows g.cols).filter
        (fun p => ((reveal_tile g order row col).1.tiles p).is_bomb)).length = g.bomb_count ∧
    (∀ p ∈ positions g.rows g.cols, ((reveal_tile g order row col).1.tiles p).is_bomb = true →
        p ∈ placeable_tiles g (row, col)) ∧
    ((reveal_tile g order row col).1.tiles (row, col)).is_bomb = false ∧
    (∀ q ∈ neighbours g.rows g.cols (row, col),
        ((reveal_tile g order row col).1.tiles q).is_bomb = false) ∧
    (∀ p ∈ positions g.rows g.cols, ((reveal_tile g order row col).1.tiles p).value =
        if ((reveal_tile g order row col).1.tiles p).is_bomb then none
        else some (((neighbours g.rows g.cols p).filter
          (fun q => ((reveal_tile g order row col).1.tiles q).is_bomb)).length : Int)) := by
  have hrow : row < g.rows ∧ col < g.cols := by
    have := hv
    unfold is_valid_position at this
    simp only [Bool.and_eq_true, decide_eq_true_eq] at this
    exact this
  have hnd : order.Nodup := (hperm.nodup_iff).mpr (placeable_nodup g (row, col))
  have hnd_b : (order.take g.bomb_count).Nodup := hnd.sublist (List.take_sublist _ _)
  have hsub_pl : ∀ b ∈ order.take g.bomb_count, b ∈ placeable_tiles g (row, col) :=
    fun b hb => hperm.subset (List.take_subset _ _ hb)
  have hsub_pos : ∀ b ∈ order.take g.bomb_count, b ∈ positions g.rows g.cols :=
    fun b hb => (mem_placeable.mp (hsub_pl b hb)).1
  have hlen : (order.take g.bomb_count).length = g.bomb_count := by
    rw [List.length_take]
    omega
  -- the resulting bomb flag of every in-bounds tile
  have hbomb : ∀ p ∈ positions g.rows g.cols,
      ((reveal_tile g order row col).1.tiles p).is_bomb =
        decide (p ∈ order.take g.bomb_count) := by
    intro p hp
    have h1 := congrArg (fun x => x.2.2.1) (reveal_tile_tileStat g order row col hv hs hbp p)
    dsimp only [tileStat] at h1
    rw [h1, place_bombs_tiles_apply g order hnd_b p hp]
    by_cases hb : p ∈ order.take g.bomb_count
    · rw [if_pos hb]
      simp [hb]
    · rw [if_neg hb]
      rw [decide_eq_false hb]
      exact hnb p hp
  have hvalue : ∀ p ∈ positions g.rows g.cols,
      ((reveal_tile g order row col).1.tiles p).value =
        if p ∈ order.take g.bomb_count then none
        else some ((bombNeighbourCount g.rows g.cols (order.take g.bomb_count) p : Nat) : Int) := by
    intro p hp
    have h1 := congrArg (fun x => x.1) (reveal_tile_tileStat g order row col hv hs hbp p)
    dsimp only [tileStat] at h1
    rw [h1, place_bombs_tiles_apply g order hnd_b p hp]
    by_cases hb : p ∈ order.take g.bomb_count
    · rw [if_pos hb, if_pos hb]
    · rw [if_neg hb, if_neg hb]
  refine ⟨?_, ?_, ?_, ?_, ?_⟩
  · -- exactly bomb_count bombs
    have hpermf : ((positions g.rows g.cols).filter
        (fun p => ((reveal_tile g order row col).1.tiles p).is_bomb)).Perm
        (order.take g.bomb_count) := by
      rw [List.perm_ext_iff_of_nodup ((positions_nodup g.rows g.cols).filter _) hnd_b]
      intro q
      rw [List.mem_filter]
      constructor
      · rintro ⟨hq, hqb⟩
        rw [hbomb q hq] at hqb
        exact of_decide_eq_true hqb
      · intro hq
        refine ⟨hsub_pos q hq, ?_⟩
        rw [hbomb q (hsub_pos q hq)]
        exact decide_eq_true hq
    rw [hpermf.length_eq, hlen]
  · intro p hp hpb
    rw [hbomb p hp] at hpb
    exact hsub_pl p (of_decide_eq_true hpb)
  · have hp : ((row, col) : Pos) ∈ positions g.rows g.cols := mem_positions.mpr hrow
    rw [hbomb _ hp]
    simp only [decide_eq_false_iff_not]
    intro hmem
    have := mem_placeable.mp (hsub_pl _ hmem)
    exact this.2 (Or.inl rfl)
  · intro q hq
    have hqpos : q ∈ positions g.rows g.cols :=
      mem_positions_of_mem_neighbours hrow.1 hrow.2 hq
    rw [hbomb _ hqpos]
    simp only [decide_eq_false_iff_not]
    intro hmem
    have := mem_placeable.mp (hsub_pl _ hmem)
    exact this.2 (Or.inr hq)
  · intro p hp
    rw [hvalue p hp]
    by_cases hb : p ∈ order.take g.bomb_count
    · rw [if_pos hb, if_pos (by rw [hbomb p hp]; exact decide_eq_true hb)]
    · rw [if_neg hb, if_neg (by rw [hbomb p hp]; simp [hb])]
      congr 1
      -- count bombs adjacent to p both ways round
      have hppos := mem_positions.mp hp
      have hcong : (neighbours g.rows g.cols p).filter
          (fun q => ((reveal_tile g order row col).1.tiles q).is_bomb) =
          (neighbours g.rows g.cols p).filter
          (fun q => decide (q ∈ order.take g.bomb_count)) := by
        refine List.filter_congr ?_
        intro q hq
        exact hbomb q (mem_positions_of_mem_neighbours hppos.1 hppos.2 hq)
      rw [hcong]
      unfold bombNeighbourCount
      rw [List.countP_eq_length_filter]
      have hpermc : ((order.take g.bomb_count).filter
          (fun b => decide (p ∈ neighbours g.rows g.cols b))).Perm
          ((neighbours g.rows g.cols p).filter
            (fun q => decide (q ∈ order.take g.bomb_count))) := by
        rw [List.perm_ext_iff_of_nodup (hnd_b.filter _) ((neighbours_nodup g.rows g.cols p).filter _)]
        intro q
        rw [List.mem_filter, List.mem_filter]
        constructor
        · rintro ⟨hq1, hq2⟩
          have hq2' := of_decide_eq_true hq2
          have hqpos := mem_positions.mp (hsub_pos q hq1)
          rw [mem_neighbours_symm hqpos.1 hqpos.2 hppos.1 hppos.2] at hq2'
          exact ⟨hq2', decide_eq_true hq1⟩
        · rintro ⟨hq1, hq2⟩
          have hq2' := of_decide_eq_true hq2
          have hqpos := mem_positions.mp (hsub_pos q hq2')
          refine ⟨hq2', ?_⟩
          rw [mem_neighbours_symm hppos.1 hppos.2 hqpos.1 hqpos.2] at hq1
          exact decide_eq_true hq1
      rw [hpermc.length_eq]

end Minesweeper

namespace Minesweeper

/-- The fields of a tile that a front end observes: hidden and flag state
plus the two neighbour sets. -/
def tileObs (t : Tile) : Bool × Bool × List Pos × List Pos :=
  (t.is_hidden, t.is_flagged, t.hidden_neighbours, t.flagged_neighbours)

/-- A fold of tile-map transformations that all preserve a projection
preserves it too. -/
theorem foldl_field {α : Type} (φ : Tile → α) (step : (Pos → Tile) → Pos → (Pos → Tile))
    (hstep : ∀ ts p r, φ ((step ts p) r) = φ (ts r)) :
    ∀ (l : List Pos) (ts : Pos → Tile) (r : Pos), φ ((l.foldl step ts) r) = φ (ts r) := by
  intro l
  induction l with
  | nil => intro ts r; rfl
  | cons q l ih =>
    intro ts r
    rw [List.foldl_cons, ih, hstep]

/-- Mine placement never touches hidden flags, flag flags or the
neighbour sets. -/
theorem place_bombs_tileObs (g : Game) (order : List Pos) (r : Pos) :
    tileObs ((place_bombs_after_first_click g order).tiles r) = tileObs (g.tiles r) := by
  unfold place_bombs_after_first_click
  dsimp only
  rw [foldl_field tileObs _ (fun ts b r => by
    rw [foldl_field tileObs _ (fun ts q r => by
        by_cases hq : q ∈ order.take g.bomb_count
        · rw [if_pos hq]
        · rw [if_neg hq]
          by_cases hr : r = q
          · subst hr; rw [updateTile_apply_self]; rfl
          · rw [updateTile_apply_ne _ _ _ hr])]
    by_cases hr : r = b
    · subst hr; rw [updateTile_apply_self]; rfl
    · rw [updateTile_apply_ne _ _ _ hr])]
  rw [foldl_field tileObs _ (fun ts p r => by
    by_cases hp : p ∈ order.take g.bomb_count
    · rw [if_pos hp]
    · rw [if_neg hp]
      by_cases hr : r = p
      · subst hr; rw [updateTile_apply_self]; rfl
      · rw [updateTile_apply_ne _ _ _ hr])]
  rw [foldl_field tileObs _ (fun ts p r => by
    by_cases hr : r = p
    · subst hr; rw [updateTile_apply_self]; rfl
    · rw [updateTile_apply_ne _ _ _ hr])]

end Minesweeper

namespace Minesweeper

/-- C5 (amended): every rejected flag call, every rejected chord call,
and a reveal rejected for an invalid position or inactive session leave
the game state exactly unchanged.  A reveal rejected as
`already_revealed` or `flagged` leaves every cell's hidden/flag state
and neighbour sets, the status and every counter unchanged — and the
whole state unchanged when the mines were already placed — but, on a
first click, mine placement has already run before the rejection (the
counterexample), so `value`/`is_bomb` fields and `bombs_placed` do
change then. -/
theorem C5_amended :
    (∀ (g : Game) (row col : Nat), (flag_tile g row col).2.result ∈
        (["invalid_position", "game_not_active", "already_revealed"] : List String) →
      (flag_tile g row col).1 = g) ∧
    (∀ (g : Game) (row col : Nat), (chord_tile g row col).2.result ∈
        (["invalid_position", "game_not_active", "not_chordable", "not_satisfied"] : List String) →
      (chord_tile g row col).1 = g) ∧
    (∀ (g : Game) (order : List Pos) (row col : Nat), (reveal_tile g order row col).2.result ∈
        (["invalid_position", "game_not_active"] : List String) →
      (reveal_tile g order row col).1 = g) ∧
    (∀ (g : Game) (order : List Pos) (row col : Nat), (reveal_tile g order row col).2.result ∈
        (["already_revealed", "flagged"] : List String) →
      (∀ p, tileObs ((reveal_tile g order row col).1.tiles p) = tileObs (g.tiles p)) ∧
      (reveal_tile g order row col).1.game_status = g.game_status ∧
      (reveal_tile g order row col).1.revealed_count = g.revealed_count ∧
      (reveal_tile g order row col).1.flagged_count = g.flagged_count ∧
      (reveal_tile g order row col).1.non_bomb_tiles_count = g.non_bomb_tiles_count ∧
      (g.bombs_placed = true → (reveal_tile g order row col).1 = g)) := by
  refine ⟨?_, ?_, ?_, ?_⟩
  · intro g row col hmem
    unfold flag_tile at hmem ⊢
    by_cases h1 : is_valid_position g row col = true
    · rw [if_neg (by simp [h1])] at hmem ⊢
      by_cases h2 : g.game_status = .playing
      · rw [if_neg (by simp [h2])] at hmem ⊢
        by_cases h3 : (g.tiles (row, col)).is_hidden = true
        · rw [if_neg (by simp [h3])] at hmem ⊢
          exact absurd hmem (by
            by_cases h4 : (g.tiles (row, col)).is_flagged = true <;>
              simp [h4])
        · rw [if_pos (by simp [h3])] at hmem ⊢
      · rw [if_pos (by simp [h2])] at hmem ⊢
    · rw [if_pos (by simp [h1])] at hmem ⊢
  · intro g row col hmem
    unfold chord_tile at hmem ⊢
    by_cases h1 : is_valid_position g row col = true
    · rw [if_neg (by simp [h1])] at hmem ⊢
      by_cases h2 : g.game_status = .playing
      · rw [if_neg (by simp [h2])] at hmem ⊢
        by_cases h3 : (g.tiles (row, col)).is_hidden = true ∨
            ¬ is_numbered (g.tiles (row, col)) = true
        · rw [if_pos h3] at hmem ⊢
        · rw [if_neg h3] at hmem ⊢
          by_cases h4 : is_satisfied (g.tiles (row, col)) = true
          · rw [if_neg (by simp [h4])] at hmem
            simp only [] at hmem
            split at hmem
            all_goals (try split at hmem)
            all_goals simp at hmem
          · rw [if_pos (by simp [h4])] at hmem ⊢
      · rw [if_pos (by simp [h2])] at hmem ⊢
    · rw [if_pos (by simp [h1])] at hmem ⊢
  · intro g order row col hmem
    unfold reveal_tile at hmem ⊢
    by_cases h1 : is_valid_position g row col = true
    · rw [if_neg (by simp [h1])] at hmem ⊢
      by_cases h2 : g.game_status = .playing
      · rw [if_neg (by simp [h2])] at hmem ⊢
        simp only [] at hmem
        split at hmem
        all_goals (try split at hmem)
        all_goals (try split at hmem)
        all_goals (try split at hmem)
        all_goals (try split at hmem)
        all_goals simp at hmem
      · rw [if_pos (by simp [h2])] at hmem ⊢
    · rw [if_pos (by simp [h1])] at hmem ⊢
  · intro g order row col hmem
    unfold reveal_tile at hmem ⊢
    by_cases h1 : is_valid_position g row col = true
    · rw [if_neg (by simp [h1])] at hmem ⊢
      by_cases h2 : g.game_status = .playing
      · rw [if_neg (by simp [h2])] at hmem ⊢
        simp only [] at hmem ⊢
        by_cases h5 : g.bombs_placed = true
        · simp only [h5, eq_self_iff_true, not_true, ite_false, if_false] at hmem ⊢
          by_cases h3 : (g.tiles (row, col)).is_hidden = true
          · rw [if_neg (by simp [h3])] at hmem ⊢
            by_cases h4 : (g.tiles (row, col)).is_flagged = true
            · rw [if_pos h4] at hmem ⊢
              exact ⟨fun p => rfl, rfl, rfl, rfl, rfl, fun _ => rfl⟩
            · rw [if_neg h4] at hmem
              try simp only [] at hmem
              split at hmem
              all_goals (try split at hmem)
              all_goals simp at hmem
          · rw [if_pos (by simp [h3])] at hmem ⊢
            exact ⟨fun p => rfl, rfl, rfl, rfl, rfl, fun _ => rfl⟩
        · have h5f : g.bombs_placed = false := by
            cases hb : g.bombs_placed
            · rfl
            · exact absurd hb h5
          simp only [h5f, Bool.false_eq_true, not_false_eq_true, ite_true, if_true] at hmem ⊢
          by_cases h3 : ((place_bombs_after_first_click g order).tiles (row, col)).is_hidden = true
          · rw [if_neg (by simp [h3])] at hmem ⊢
            by_cases h4 : ((place_bombs_after_first_click g order).tiles (row, col)).is_flagged = true
            · rw [if_pos h4] at hmem ⊢
              exact ⟨fun p => place_bombs_tileObs g order p, rfl, rfl, rfl, rfl,
                fun h => h.elim⟩
            · rw [if_neg h4] at hmem
              try simp only [] at hmem
              split at hmem
              all_goals (try split at hmem)
              all_goals simp at hmem
          · rw [if_pos (by simp [h3])] at hmem ⊢
            exact ⟨fun p => place_bombs_tileObs g order p, rfl, rfl, rfl, rfl,
              fun h => h.elim⟩
      · rw [if_pos (by simp [h2])] at hmem ⊢
        exact ⟨fun p => rfl, rfl, rfl, rfl, rfl, fun _ => rfl⟩
    · rw [if_pos (by simp [h1])] at hmem ⊢
      exact ⟨fun p => rfl, rfl, rfl, rfl, rfl, fun _ => rfl⟩

end Minesweeper

namespace Minesweeper

/-- Pointwise characterisation of `Tile.on_reveal`: every neighbour of the
revealed tile whose `value != 0` loses the tile from its
`hidden_neighbours`; nothing else changes. -/
theorem on_reveal_tiles_char (rows cols : Nat) (p : Pos) (ts : Pos → Tile)
    (upd : List Pos) (r : Pos) :
    (on_reveal rows cols p ts upd).1 r =
      if r ∈ neighbours rows cols p ∧ (ts r).value ≠ some 0 then
        { ts r with hidden_neighbours := (ts r).hidden_neighbours.erase p }
      else ts r := by
  unfold on_reveal
  have key : ∀ (l : List Pos), l.Nodup → ∀ (ts : Pos → Tile) (upd : List Pos),
      ((l.foldl (fun acc q =>
          let n := acc.1 q
          if n.value ≠ some 0 ∧ p ∈ n.hidden_neighbours then
            (updateTile acc.1 q (fun t => { t with hidden_neighbours := t.hidden_neighbours.erase p }),
             setAdd acc.2 q)
          else acc) (ts, upd)).1 r) =
        if r ∈ l ∧ (ts r).value ≠ some 0 then
          { ts r with hidden_neighbours := (ts r).hidden_neighbours.erase p }
        else ts r := by
    intro l
    induction l with
    | nil =>
      intro _ ts upd
      rw [if_neg (by simp)]
      rfl
    | cons q l ih =>
      intro hnd ts upd
      rcases List.nodup_cons.mp hnd with ⟨hq, hnd'⟩
      simp only [List.foldl_cons]
      by_cases hc : (ts q).value ≠ some 0 ∧ p ∈ (ts q).hidden_neighbours
      · rw [if_pos hc, ih hnd']
        by_cases hr : r = q
        · subst hr
          rw [updateTile_apply_self]
          simp only [hq, false_and, if_false, List.mem_cons, eq_self_iff_true, true_or,
            true_and, ne_eq, hc.1, not_false_eq_true, if_true]
        · rw [updateTile_apply_ne _ _ _ hr]
          simp only [List.mem_cons, hr, false_or]
      · rw [if_neg hc, ih hnd']
        by_cases hr : r = q
        · subst hr
          by_cases hv : (ts r).value = some 0
          · simp only [hq, false_and, if_false, List.mem_cons, eq_self_iff_true, true_or,
              true_and, hv, ne_eq, not_true_eq_false, and_false, if_false]
          · have hp' : p ∉ (ts r).hidden_neighbours := fun hmem => hc ⟨hv, hmem⟩
            simp only [hq, false_and, if_false, List.mem_cons, eq_self_iff_true, true_or,
              true_and, hv, ne_eq, not_false_eq_true, if_true, List.erase_of_not_mem hp']
        · simp only [List.mem_cons, hr, false_or]
  exact key _ (neighbours_nodup rows cols p) ts upd

/-- Pointwise characterisation of `Tile.on_flag`: every neighbour of the
flagged tile whose `value != 0` gains the tile in `flagged_neighbours`
(if not already there) and loses it from `hidden_neighbours`. -/
theorem on_flag_tiles_char (rows cols : Nat) (p : Pos) (ts : Pos → Tile)
    (upd : List Pos) (r : Pos) :
    (on_flag rows cols p ts upd).1 r =
      if r ∈ neighbours rows cols p ∧ (ts r).value ≠ some 0 then
        { ts r with
          flagged_neighbours := setAdd (ts r).flagged_neighbours p,
          hidden_neighbours := (ts r).hidden_neighbours.erase p }
      else ts r := by
  unfold on_flag
  have key : ∀ (l : List Pos), l.Nodup → ∀ (ts : Pos → Tile) (upd : List Pos),
      ((l.foldl (fun acc q =>
          if (acc.1 q).value = some 0 then acc
          else
            let step1 : (Pos → Tile) × Bool :=
              if p ∈ (acc.1 q).flagged_neighbours then (acc.1, false)
              else (updateTile acc.1 q (fun t => { t with flagged_neighbours := p :: t.flagged_neighbours }), true)
            let step2 : (Pos → Tile) × Bool :=
              if p ∈ (step1.1 q).hidden_neighbours then
                (updateTile step1.1 q (fun t => { t with hidden_neighbours := t.hidden_neighbours.erase p }), true)
              else (step1.1, false)
            if step1.2 ∨ step2.2 then (step2.1, setAdd acc.2 q) else (step2.1, acc.2))
        (ts, upd)).1 r) =
        if r ∈ l ∧ (ts r).value ≠ some 0 then
          { ts r with
            flagged_neighbours := setAdd (ts r).flagged_neighbours p,
            hidden_neighbours := (ts r).hidden_neighbours.erase p }
        else ts r := by
    intro l
    induction l with
    | nil =>
      intro _ ts upd
      rw [if_neg (by simp)]
      rfl
    | cons q l ih =>
      intro hnd ts upd
      rcases List.nodup_cons.mp hnd with ⟨hq, hnd'⟩
      simp only [List.foldl_cons]
      by_cases hz : (ts q).value = some 0
      · rw [if_pos hz, ih hnd']
        by_cases hr : r = q
        · subst hr
          simp only [hq, false_and, if_false, List.mem_cons, eq_self_iff_true, true_or,
            true_and, hz, ne_eq, not_true_eq_false, and_false, if_false]
        · simp only [List.mem_cons, hr, false_or]
      · rw [if_neg hz]
        try simp only []
        by_cases hf : p ∈ (ts q).flagged_neighbours
        · rw [if_pos hf]
          try simp only []
          by_cases hh : p ∈ (ts q).hidden_neighbours
          · rw [if_pos hh]
            simp only [Bool.false_eq_true, false_or, eq_self_iff_true, if_true, ih hnd']
            by_cases hr : r = q
            · subst hr
              rw [updateTile_apply_self]
              simp only [hq, false_and, if_false, List.mem_cons, eq_self_iff_true, true_or,
                true_and, hz, ne_eq, not_false_eq_true, if_true, setAdd, hf]
            · rw [updateTile_apply_ne _ _ _ hr]
              simp only [List.mem_cons, hr, false_or]
          · rw [if_neg hh]
            simp only [Bool.false_eq_true, or_self, if_false, ih hnd']
            by_cases hr : r = q
            · subst hr
              simp only [hq, false_and, if_false, List.mem_cons, eq_self_iff_true, true_or,
                true_and, hz, ne_eq, not_false_eq_true, if_true, setAdd, hf,
                List.erase_of_not_mem hh]
            · simp only [List.mem_cons, hr, false_or]
        · rw [if_neg hf]
          try simp only []
          by_cases hh : p ∈ (ts q).hidden_neighbours
          · rw [if_pos (show p ∈ ((updateTile ts q (fun t =>
                { t with flagged_neighbours := p :: t.flagged_neighbours }),
                  true).1 q).hidden_neighbours by simp [updateTile, hh])]
            simp only [eq_self_iff_true, true_or, if_true, ih hnd']
            by_cases hr : r = q
            · subst hr
              rw [updateTile_apply_self, updateTile_apply_self]
              simp only [hq, false_and, if_false, List.mem_cons, eq_self_iff_true, true_or,
                true_and, hz, ne_eq, not_false_eq_true, if_true, setAdd, hf, ite_false,
                if_false]
            · rw [updateTile_apply_ne _ _ _ hr, updateTile_apply_ne _ _ _ hr]
              simp only [List.mem_cons, hr, false_or]
          · rw [if_neg (show ¬ p ∈ ((updateTile ts q (fun t =>
                { t with flagged_neighbours := p :: t.flagged_neighbours }),
                  true).1 q).hidden_neighbours by simp [updateTile, hh])]
            simp only [eq_self_iff_true, true_or, if_true, ih hnd']
            by_cases hr : r = q
            · subst hr
              rw [updateTile_apply_self]
              simp only [hq, false_and, if_false, List.mem_cons, eq_self_iff_true, true_or,
                true_and, hz, ne_eq, not_false_eq_true, if_true, setAdd, hf, ite_false,
                if_false, List.erase_of_not_mem hh]
            · rw [updateTile_apply_ne _ _ _ hr]
              simp only [List.mem_cons, hr, false_or]
  exact key _ (neighbours_nodup rows cols p) ts upd

end Minesweeper

namespace Minesweeper

/-- The corrected neighbour-set invariant for one maintained cell of a
tile map: its `hidden_neighbours` set is exactly its neighbours that are
hidden and unflagged, and its `flagged_neighbours` set is exactly its
flagged neighbours (both duplicate-free). -/
def TileOkT (rows cols : Nat) (ts : Pos → Tile) (p : Pos) : Prop :=
  (ts p).hidden_neighbours.Nodup ∧
  (ts p).flagged_neighbours.Nodup ∧
  (∀ q ∈ (ts p).hidden_neighbours,
    q ∈ neighbours rows cols p ∧ (ts q).is_hidden = true ∧ (ts q).is_flagged = false) ∧
  (∀ q ∈ neighbours rows cols p,
    (ts q).is_hidden = true → (ts q).is_flagged = false → q ∈ (ts p).hidden_neighbours) ∧
  (∀ q ∈ (ts p).flagged_neighbours,
    q ∈ neighbours rows cols p ∧ (ts q).is_flagged = true) ∧
  (∀ q ∈ neighbours rows cols p,
    (ts q).is_flagged = true → q ∈ (ts p).flagged_neighbours)

/-- The neighbour-set invariant over all maintained (non-zero-valued)
in-bounds cells of a tile map. -/
def TInv (rows cols : Nat) (ts : Pos → Tile) : Prop :=
  ∀ p ∈ positions rows cols, (ts p).value ≠ some 0 → TileOkT rows cols ts p

/-- The full state invariant: before mine placement every value is still
unassigned, and the neighbour-set invariant holds. -/
def Inv (g : Game) : Prop :=
  (g.bombs_placed = false → ∀ p ∈ positions g.rows g.cols, (g.tiles p).value = none) ∧
  TInv g.rows g.cols g.tiles

/-- The count form of the invariant, as the (amended) claim states it:
for every maintained cell the sizes of the two sets equal the live counts
of hidden-unflagged and flagged neighbours. -/
def count_inv (g : Game) : Prop :=
  ∀ p ∈ positions g.rows g.cols, (g.tiles p).value ≠ some 0 →
    (g.tiles p).hidden_neighbours.length =
      ((neighbours g.rows g.cols p).filter
        (fun q => (g.tiles q).is_hidden && !(g.tiles q).is_flagged)).length ∧
    (g.tiles p).flagged_neighbours.length =
      ((neighbours g.rows g.cols p).filter (fun q => (g.tiles q).is_flagged)).length

theorem TInv_congr (rows cols : Nat) {ts ts' : Pos → Tile}
    (h : ∀ r, ts' r = ts r) (hinv : TInv rows cols ts) : TInv rows cols ts' := by
  intro p hp hv
  have hok := hinv p hp (by rw [← h p]; exact hv)
  obtain ⟨h1, h2, h3, h4, h5, h6⟩ := hok
  refine ⟨by rw [h]; exact h1, by rw [h]; exact h2, ?_, ?_, ?_, ?_⟩
  · intro q hq
    rw [h p] at hq
    rcases h3 q hq with ⟨ha, hb, hc⟩
    exact ⟨ha, by rw [h]; exact hb, by rw [h]; exact hc⟩
  · intro q hq hh hf
    rw [h p]
    exact h4 q hq (by rw [← h q]; exact hh) (by rw [← h q]; exact hf)
  · intro q hq
    rw [h p] at hq
    rcases h5 q hq with ⟨ha, hb⟩
    exact ⟨ha, by rw [h]; exact hb⟩
  · intro q hq hf
    rw [h p]
    exact h6 q hq (by rw [← h q]; exact hf)

/-- `TileOkT` only looks at hidden/flag state and the neighbour sets, so
it transfers along any map change that preserves those. -/
theorem TInv_congr_obs (rows cols : Nat) {ts ts' : Pos → Tile}
    (h : ∀ r, tileObs (ts' r) = tileObs (ts r)) (hinv : TInv rows cols ts)
    (hscope : ∀ p ∈ positions rows cols, (ts' p).value ≠ some 0 → (ts p).value ≠ some 0) :
    TInv rows cols ts' := by
  have hhid : ∀ r, (ts' r).is_hidden = (ts r).is_hidden :=
    fun r => congrArg (fun x => x.1) (h r)
  have hfl : ∀ r, (ts' r).is_flagged = (ts r).is_flagged :=
    fun r => congrArg (fun x => x.2.1) (h r)
  have hhn : ∀ r, (ts' r).hidden_neighbours = (ts r).hidden_neighbours :=
    fun r => congrArg (fun x => x.2.2.1) (h r)
  have hfn : ∀ r, (ts' r).flagged_neighbours = (ts r).flagged_neighbours :=
    fun r => congrArg (fun x => x.2.2.2) (h r)
  intro p hp hv
  obtain ⟨h1, h2, h3, h4, h5, h6⟩ := hinv p hp (hscope p hp hv)
  refine ⟨by rw [hhn]; exact h1, by rw [hfn]; exact h2, ?_, ?_, ?_, ?_⟩
  · intro q hq
    rw [hhn p] at hq
    rcases h3 q hq with ⟨ha, hb, hc⟩
    exact ⟨ha, by rw [hhid]; exact hb, by rw [hfl]; exact hc⟩
  · intro q hq hh hf
    rw [hhn p]
    exact h4 q hq (by rw [← hhid q]; exact hh) (by rw [← hfl q]; exact hf)
  · intro q hq
    rw [hfn p] at hq
    rcases h5 q hq with ⟨ha, hb⟩
    exact ⟨ha, by rw [hfl]; exact hb⟩
  · intro q hq hf
    rw [hfn p]
    exact h6 q hq (by rw [← hfl q]; exact hf)

end Minesweeper

namespace Minesweeper

/-- Revealing a tile and running `Tile.on_reveal` restores the
neighbour-set invariant. -/
theorem reveal_step_TInv (rows cols : Nat) (p : Pos) (ts : Pos → Tile) (upd : List Pos)
    (hp : p.1 < rows ∧ p.2 < cols) (hinv : TInv rows cols ts) :
    TInv rows cols (on_reveal rows cols p
      (updateTile ts p (fun t => { t with is_hidden := false })) upd).1 := by
  set ts1 := updateTile ts p (fun t => { t with is_hidden := false }) with hts1def
  set TS := (on_reveal rows cols p ts1 upd).1 with hTSdef
  have hts1v : ∀ s, (ts1 s).value = (ts s).value := by
    intro s
    by_cases hs : s = p
    · subst hs; rw [hts1def, updateTile_apply_self]
    · rw [hts1def, updateTile_apply_ne _ _ _ hs]
  have hts1f : ∀ s, (ts1 s).is_flagged = (ts s).is_flagged := by
    intro s
    by_cases hs : s = p
    · subst hs; rw [hts1def, updateTile_apply_self]
    · rw [hts1def, updateTile_apply_ne _ _ _ hs]
  have hts1hs : ∀ s, (ts1 s).hidden_neighbours = (ts s).hidden_neighbours := by
    intro s
    by_cases hs : s = p
    · subst hs; rw [hts1def, updateTile_apply_self]
    · rw [hts1def, updateTile_apply_ne _ _ _ hs]
  have hts1fs : ∀ s, (ts1 s).flagged_neighbours = (ts s).flagged_neighbours := by
    intro s
    by_cases hs : s = p
    · subst hs; rw [hts1def, updateTile_apply_self]
    · rw [hts1def, updateTile_apply_ne _ _ _ hs]
  have hts1h : ∀ s, s ≠ p → (ts1 s).is_hidden = (ts s).is_hidden := by
    intro s hs
    rw [hts1def, updateTile_apply_ne _ _ _ hs]
  have hts1hp : (ts1 p).is_hidden = false := by
    rw [hts1def, updateTile_apply_self]
  have hchar : ∀ s, TS s =
      if s ∈ neighbours rows cols p ∧ (ts s).value ≠ some 0 then
        { ts1 s with hidden_neighbours := (ts s).hidden_neighbours.erase p }
      else ts1 s := by
    intro s
    rw [hTSdef, on_reveal_tiles_char rows cols p ts1 upd s, hts1v, hts1hs]
  have hTSv : ∀ s, (TS s).value = (ts s).value := by
    intro s
    rw [hchar s]
    by_cases hc : s ∈ neighbours rows cols p ∧ (ts s).value ≠ some 0
    · rw [if_pos hc]; exact hts1v s
    · rw [if_neg hc]; exact hts1v s
  have hTSf : ∀ s, (TS s).is_flagged = (ts s).is_flagged := by
    intro s
    rw [hchar s]
    by_cases hc : s ∈ neighbours rows cols p ∧ (ts s).value ≠ some 0
    · rw [if_pos hc]; exact hts1f s
    · rw [if_neg hc]; exact hts1f s
  have hTSfs : ∀ s, (TS s).flagged_neighbours = (ts s).flagged_neighbours := by
    intro s
    rw [hchar s]
    by_cases hc : s ∈ neighbours rows cols p ∧ (ts s).value ≠ some 0
    · rw [if_pos hc]; exact hts1fs s
    · rw [if_neg hc]; exact hts1fs s
  have hTSh : ∀ s, (TS s).is_hidden = (ts1 s).is_hidden := by
    intro s
    rw [hchar s]
    by_cases hc : s ∈ neighbours rows cols p ∧ (ts s).value ≠ some 0
    · rw [if_pos hc]
    · rw [if_neg hc]
  intro r hr hv
  have hrb := mem_positions.mp hr
  have hv' : (ts r).value ≠ some 0 := by rw [← hTSv r]; exact hv
  obtain ⟨h1, h2, h3, h4, h5, h6⟩ := hinv r hr hv'
  have hqnep : ∀ q, q ∈ (ts r).hidden_neighbours ∨ q ∈ (ts r).flagged_neighbours →
      p ∈ neighbours rows cols r → r ∈ neighbours rows cols p := by
    intro q _ hpr
    exact (mem_neighbours_symm hrb.1 hrb.2 hp.1 hp.2).mp hpr
  refine ⟨?_, ?_, ?_, ?_, ?_, ?_⟩
  · rw [hchar r]
    by_cases hc : r ∈ neighbours rows cols p ∧ (ts r).value ≠ some 0
    · rw [if_pos hc]
      exact h1.erase p
    · rw [if_neg hc]
      rw [hts1hs]
      exact h1
  · rw [hTSfs r]
    exact h2
  · intro q hq
    rw [hchar r] at hq
    have hge : q ∈ (ts r).hidden_neighbours ∧ q ≠ p := by
      by_cases hc : r ∈ neighbours rows cols p ∧ (ts r).value ≠ some 0
      · rw [if_pos hc] at hq
        simp only at hq
        rcases (h1.mem_erase_iff).mp hq with ⟨hne, hmem⟩
        exact ⟨hmem, hne⟩
      · rw [if_neg hc, hts1hs] at hq
        refine ⟨hq, ?_⟩
        intro hqp
        subst hqp
        have hpr : q ∈ neighbours rows cols r := (h3 q hq).1
        have : r ∈ neighbours rows cols q :=
          (mem_neighbours_symm hrb.1 hrb.2 hp.1 hp.2).mp hpr
        exact hc ⟨this, hv'⟩
    rcases h3 q hge.1 with ⟨ha, hb, hcf⟩
    refine ⟨ha, ?_, ?_⟩
    · rw [hTSh q, hts1h q hge.2]
      exact hb
    · rw [hTSf q]
      exact hcf
  · intro q hq hh hf
    have hqp : q ≠ p := by
      intro hqp
      subst hqp
      rw [hTSh q, hts1hp] at hh
      exact Bool.false_ne_true hh
    have hh' : (ts q).is_hidden = true := by
      rw [hTSh q, hts1h q hqp] at hh
      exact hh
    have hf' : (ts q).is_flagged = false := by
      rw [hTSf q] at hf
      exact hf
    have hmem := h4 q hq hh' hf'
    rw [hchar r]
    by_cases hc : r ∈ neighbours rows cols p ∧ (ts r).value ≠ some 0
    · rw [if_pos hc]
      simp only
      exact (h1.mem_erase_iff).mpr ⟨hqp, hmem⟩
    · rw [if_neg hc, hts1hs]
      exact hmem
  · intro q hq
    rw [hTSfs r] at hq
    rcases h5 q hq with ⟨ha, hb⟩
    refine ⟨ha, ?_⟩
    rw [hTSf q]
    exact hb
  · intro q hq hf
    rw [hTSfs r]
    exact h6 q hq (by rw [← hTSf q]; exact hf)

end Minesweeper

namespace Minesweeper

theorem mem_setAdd {s : List Pos} {a b : Pos} : a ∈ setAdd s b ↔ a = b ∨ a ∈ s := by
  unfold setAdd
  by_cases hb : b ∈ s
  · rw [if_pos hb]
    constructor
    · exact fun h => Or.inr h
    · rintro (h | h)
      · rw [h]; exact hb
      · exact h
  · rw [if_neg hb]
    exact List.mem_cons

theorem setAdd_nodup {s : List Pos} (b : Pos) (h : s.Nodup) : (setAdd s b).Nodup := by
  unfold setAdd
  by_cases hb : b ∈ s
  · rw [if_pos hb]; exact h
  · rw [if_neg hb]; exact List.nodup_cons.mpr ⟨hb, h⟩

/-- Running `Tile.on_reveal` for a tile that is already revealed changes
nothing. -/
theorem on_reveal_noop_TInv (rows cols : Nat) (p : Pos) (ts : Pos → Tile) (upd : List Pos)
    (hp : p.1 < rows ∧ p.2 < cols) (hrev : (ts p).is_hidden = false) (hinv : TInv rows cols ts) :
    TInv rows cols (on_reveal rows cols p ts upd).1 := by
  refine TInv_congr rows cols ?_ hinv
  intro r
  rw [on_reveal_tiles_char]
  by_cases hc : r ∈ neighbours rows cols p ∧ (ts r).value ≠ some 0
  · rw [if_pos hc]
    have hrpos : r ∈ positions rows cols := mem_positions_of_mem_neighbours hp.1 hp.2 hc.1
    have hok := hinv r hrpos hc.2
    have hpne : p ∉ (ts r).hidden_neighbours := by
      intro hmem
      have := (hok.2.2.1 p hmem).2.1
      rw [hrev] at this
      exact Bool.false_ne_true this
    rw [List.erase_of_not_mem hpne]
  · rw [if_neg hc]

/-- Flagging an unflagged tile and running `Tile.on_flag` restores the
neighbour-set invariant. -/
theorem flag_step_TInv (rows cols : Nat) (p : Pos) (ts : Pos → Tile) (upd : List Pos)
    (hp : p.1 < rows ∧ p.2 < cols) (hf0 : (ts p).is_flagged = false)
    (hinv : TInv rows cols ts) :
    TInv rows cols (on_flag rows cols p
      (updateTile ts p (fun t => { t with is_flagged := true })) upd).1 := by
  set ts1 := updateTile ts p (fun t => { t with is_flagged := true }) with hts1def
  set TS := (on_flag rows cols p ts1 upd).1 with hTSdef
  have hts1v : ∀ s, (ts1 s).value = (ts s).value := by
    intro s
    by_cases hs : s = p
    · subst hs; rw [hts1def, updateTile_apply_self]
    · rw [hts1def, updateTile_apply_ne _ _ _ hs]
  have hts1h : ∀ s, (ts1 s).is_hidden = (ts s).is_hidden := by
    intro s
    by_cases hs : s = p
    · subst hs; rw [hts1def, updateTile_apply_self]
    · rw [hts1def, updateTile_apply_ne _ _ _ hs]
  have hts1hs : ∀ s, (ts1 s).hidden_neighbours = (ts s).hidden_neighbours := by
    intro s
    by_cases hs : s = p
    · subst hs; rw [hts1def, updateTile_apply_self]
    · rw [hts1def, updateTile_apply_ne _ _ _ hs]
  have hts1fs : ∀ s, (ts1 s).flagged_neighbours = (ts s).flagged_neighbours := by
    intro s
    by_cases hs : s = p
    · subst hs; rw [hts1def, updateTile_apply_self]
    · rw [hts1def, updateTile_apply_ne _ _ _ hs]
  have hts1f : ∀ s, s ≠ p → (ts1 s).is_flagged = (ts s).is_flagged := by
    intro s hs
    rw [hts1def, updateTile_apply_ne _ _ _ hs]
  have hts1fp : (ts1 p).is_flagged = true := by
    rw [hts1def, updateTile_apply_self]
  have hchar : ∀ s, TS s =
      if s ∈ neighbours rows cols p ∧ (ts s).value ≠ some 0 then
        { ts1 s with
          flagged_neighbours := setAdd (ts s).flagged_neighbours p,
          hidden_neighbours := (ts s).hidden_neighbours.erase p }
      else ts1 s := by
    intro s
    rw [hTSdef, on_flag_tiles_char rows cols p ts1 upd s, hts1v, hts1hs, hts1fs]
  have hTSv : ∀ s, (TS s).value = (ts s).value := by
    intro s
    rw [hchar s]
    by_cases hc : s ∈ neighbours rows cols p ∧ (ts s).value ≠ some 0
    · rw [if_pos hc]; exact hts1v s
    · rw [if_neg hc]; exact hts1v s
  have hTSh : ∀ s, (TS s).is_hidden = (ts s).is_hidden := by
    intro s
    rw [hchar s]
    by_cases hc : s ∈ neighbours rows cols p ∧ (ts s).value ≠ some 0
    · rw [if_pos hc]; exact hts1h s
    · rw [if_neg hc]; exact hts1h s
  have hTSf : ∀ s, (TS s).is_flagged = (ts1 s).is_flagged := by
    intro s
    rw [hchar s]
    by_cases hc : s ∈ neighbours rows cols p ∧ (ts s).value ≠ some 0
    · rw [if_pos hc]
    · rw [if_neg hc]
  intro r hr hv
  have hrb := mem_positions.mp hr
  have hv' : (ts r).value ≠ some 0 := by rw [← hTSv r]; exact hv
  obtain ⟨h1, h2, h3, h4, h5, h6⟩ := hinv r hr hv'
  refine ⟨?_, ?_, ?_, ?_, ?_, ?_⟩
  · rw [hchar r]
    by_cases hc : r ∈ neighbours rows cols p ∧ (ts r).value ≠ some 0
    · rw [if_pos hc]
      exact h1.erase p
    · rw [if_neg hc, hts1hs]
      exact h1
  · rw [hchar r]
    by_cases hc : r ∈ neighbours rows cols p ∧ (ts r).value ≠ some 0
    · rw [if_pos hc]
      exact setAdd_nodup p h2
    · rw [if_neg hc, hts1fs]
      exact h2
  · intro q hq
    rw [hchar r] at hq
    have hge : q ∈ (ts r).hidden_neighbours ∧ q ≠ p := by
      by_cases hc : r ∈ neighbours rows cols p ∧ (ts r).value ≠ some 0
      · rw [if_pos hc] at hq
        simp only at hq
        rcases (h1.mem_erase_iff).mp hq with ⟨hne, hmem⟩
        exact ⟨hmem, hne⟩
      · rw [if_neg hc, hts1hs] at hq
        refine ⟨hq, ?_⟩
        intro hqp
        subst hqp
        have hpr : q ∈ neighbours rows cols r := (h3 q hq).1
        have : r ∈ neighbours rows cols q :=
          (mem_neighbours_symm hrb.1 hrb.2 hp.1 hp.2).mp hpr
        exact hc ⟨this, hv'⟩
    rcases h3 q hge.1 with ⟨ha, hb, hcf⟩
    refine ⟨ha, ?_, ?_⟩
    · rw [hTSh q]
      exact hb
    · rw [hTSf q, hts1f q hge.2]
      exact hcf
  · intro q hq hh hf
    have hqp : q ≠ p := by
      intro hqp
      subst hqp
      rw [hTSf q, hts1fp] at hf
      simp at hf
    have hh' : (ts q).is_hidden = true := by
      rw [hTSh q] at hh
      exact hh
    have hf' : (ts q).is_flagged = false := by
      rw [hTSf q, hts1f q hqp] at hf
      exact hf
    have hmem := h4 q hq hh' hf'
    rw [hchar r]
    by_cases hc : r ∈ neighbours rows cols p ∧ (ts r).value ≠ some 0
    · rw [if_pos hc]
      simp only
      exact (h1.mem_erase_iff).mpr ⟨hqp, hmem⟩
    · rw [if_neg hc, hts1hs]
      exact hmem
  · intro q hq
    rw [hchar r] at hq
    by_cases hc : r ∈ neighbours rows cols p ∧ (ts r).value ≠ some 0
    · rw [if_pos hc] at hq
      simp only at hq
      rcases mem_setAdd.mp hq with hqp | hqm
      · subst hqp
        refine ⟨(mem_neighbours_symm hp.1 hp.2 hrb.1 hrb.2).mp hc.1, ?_⟩
        rw [hTSf q, hts1fp]
      · rcases h5 q hqm with ⟨ha, hb⟩
        have hqp : q ≠ p := by
          intro h
          subst h
          rw [hf0] at hb
          simp at hb
        exact ⟨ha, by rw [hTSf q, hts1f q hqp]; exact hb⟩
    · rw [if_neg hc, hts1fs] at hq
      rcases h5 q hq with ⟨ha, hb⟩
      have hqp : q ≠ p := by
        intro h
        subst h
        rw [hf0] at hb
        simp at hb
      exact ⟨ha, by rw [hTSf q, hts1f q hqp]; exact hb⟩
  · intro q hq hf
    rw [hchar r]
    by_cases hc : r ∈ neighbours rows cols p ∧ (ts r).value ≠ some 0
    · rw [if_pos hc]
      simp only
      by_cases hqp : q = p
      · subst hqp
        exact mem_setAdd.mpr (Or.inl rfl)
      · have hf' : (ts q).is_flagged = true := by
          rw [hTSf q, hts1f q hqp] at hf
          exact hf
        exact mem_setAdd.mpr (Or.inr (h6 q hq hf'))
    · rw [if_neg hc, hts1fs]
      by_cases hqp : q = p
      · subst hqp
        exact absurd ⟨(mem_neighbours_symm hrb.1 hrb.2 hp.1 hp.2).mp hq, hv'⟩ hc
      · have hf' : (ts q).is_flagged = true := by
          rw [hTSf q, hts1f q hqp] at hf
          exact hf
        exact h6 q hq hf'

end Minesweeper

namespace Minesweeper

/-- The `Tile.reveal` cascade preserves the (corrected) neighbour-set
invariant whenever every queued cell is in bounds. -/
theorem reveal_loop_TInv (rows cols : Nat) (fuel : Nat) :
    ∀ (queue visited : List Pos) (st : OpSt) (b : Bool),
    (∀ q ∈ queue, q ∈ positions rows cols) →
    TInv rows cols st.tiles →
    TInv rows cols ((reveal_loop rows cols fuel queue visited st b).1).tiles := by
  induction fuel with
  | zero =>
    intro queue visited st b hq hinv
    cases queue with
    | nil => exact hinv
    | cons p rest => exact hinv
  | succ n ih =>
    intro queue visited st b hq hinv
    cases queue with
    | nil => exact hinv
    | cons p rest =>
      have hrest : ∀ q ∈ rest, q ∈ positions rows cols :=
        fun q hq' => hq q (List.mem_cons_of_mem _ hq')
      have hp : p.1 < rows ∧ p.2 < cols :=
        mem_positions.mp (hq p (List.mem_cons_self _ _))
      rw [reveal_loop]
      by_cases hv : p ∈ visited
      · rw [if_pos hv]
        exact ih rest visited st b hrest hinv
      · rw [if_neg hv]
        dsimp only
        by_cases hh : (st.tiles p).is_hidden
        · rw [if_pos hh]
          by_cases hb : (st.tiles p).is_bomb
          · rw [if_pos hb]
            refine ih _ _ _ _ ?_ ?_
            · intro q hq'
              split at hq'
              · rcases List.mem_append.mp hq' with h | h
                · exact hrest q h
                · exact mem_positions_of_mem_neighbours hp.1 hp.2 (List.mem_filter.mp h).1
              · exact hrest q hq'
            · dsimp only
              exact reveal_step_TInv rows cols p st.tiles _ hp hinv
          · rw [if_neg hb]
            refine ih _ _ _ _ ?_ ?_
            · intro q hq'
              split at hq'
              · rcases List.mem_append.mp hq' with h | h
                · exact hrest q h
                · exact mem_positions_of_mem_neighbours hp.1 hp.2 (List.mem_filter.mp h).1
              · exact hrest q hq'
            · dsimp only
              exact reveal_step_TInv rows cols p st.tiles _ hp hinv
        · rw [if_neg hh]
          have hrev : (st.tiles p).is_hidden = false := by
            revert hh
            cases (st.tiles p).is_hidden <;> simp
          refine ih _ _ _ _ ?_ ?_
          · intro q hq'
            split at hq'
            · rcases List.mem_append.mp hq' with h | h
              · exact hrest q h
              · exact mem_positions_of_mem_neighbours hp.1 hp.2 (List.mem_filter.mp h).1
            · exact hrest q hq'
          · dsimp only
            exact on_reveal_noop_TInv rows cols p st.tiles _ hp hrev hinv

/-- The `Tile.reveal_batch` cascade preserves the neighbour-set invariant
whenever every queued cell is in bounds. -/
theorem reveal_batch_loop_TInv (rows cols : Nat) (fuel : Nat) :
    ∀ (queue visited : List Pos) (st : OpSt) (b : Bool) (bp : Option Pos),
    (∀ q ∈ queue, q ∈ positions rows cols) →
    TInv rows cols st.tiles →
    TInv rows cols ((reveal_batch_loop rows cols fuel queue visited st b bp).1).tiles := by
  induction fuel with
  | zero =>
    intro queue visited st b bp hq hinv
    cases queue with
    | nil => exact hinv
    | cons p rest => exact hinv
  | succ n ih =>
    intro queue visited st b bp hq hinv
    cases queue with
    | nil => exact hinv
    | cons p rest =>
      have hrest : ∀ q ∈ rest, q ∈ positions rows cols :=
        fun q hq' => hq q (List.mem_cons_of_mem _ hq')
      have hp : p.1 < rows ∧ p.2 < cols :=
        mem_positions.mp (hq p (List.mem_cons_self _ _))
      rw [reveal_batch_loop]
      by_cases hv : p ∈ visited ∨ ¬ (st.tiles p).is_hidden
      · rw [if_pos hv]
        exact ih rest visited st b bp hrest hinv
      · rw [if_neg hv]
        dsimp only
        by_cases hb : (st.tiles p).is_bomb
        · rw [if_pos hb]
          refine ih _ _ _ _ _ ?_ ?_
          · intro q hq'
            split at hq'
            · rcases List.mem_append.mp hq' with h | h
              · exact hrest q h
              · exact mem_positions_of_mem_neighbours hp.1 hp.2 (List.mem_filter.mp h).1
            · exact hrest q hq'
          · dsimp only
            exact reveal_step_TInv rows cols p st.tiles _ hp hinv
        · rw [if_neg hb]
          refine ih _ _ _ _ _ ?_ ?_
          · intro q hq'
            split at hq'
            · rcases List.mem_append.mp hq' with h | h
              · exact hrest q h
              · exact mem_positions_of_mem_neighbours hp.1 hp.2 (List.mem_filter.mp h).1
            · exact hrest q hq'
          · dsimp only
            exact reveal_step_TInv rows cols p st.tiles _ hp hinv

end Minesweeper

namespace Minesweeper

/-- `Tile.on_flag` never changes a `value` field. -/
theorem on_flag_value (rows cols : Nat) (p r : Pos) (ts : Pos → Tile) (upd : List Pos) :
    ((on_flag rows cols p ts upd).1 r).value = (ts r).value := by
  rw [on_flag_tiles_char]
  split
  · rfl
  · rfl

/-- Setting a flag never changes a `value` field. -/
theorem updateTile_flag_value (ts : Pos → Tile) (p r : Pos) :
    ((updateTile ts p (fun t => { t with is_flagged := true })) r).value = (ts r).value := by
  by_cases hr : r = p
  · subst hr
    rw [updateTile_apply_self]
  · rw [updateTile_apply_ne _ _ _ hr]

/-- The state invariant ignores the session status. -/
theorem Inv_set_status (g : Game) (s : Status) :
    Inv { g with game_status := s } ↔ Inv g := Iff.rfl

/-- Rebuilding a game around a new tile map and revealed counter
satisfies the invariant when the map does. -/
theorem Inv_update_tiles (g : Game) (ts : Pos → Tile) (rc : Nat)
    (h1 : g.bombs_placed = false → ∀ p ∈ positions g.rows g.cols, (ts p).value = none)
    (ht : TInv g.rows g.cols ts) :
    Inv { g with tiles := ts, revealed_count := rc } :=
  ⟨h1, ht⟩

/-- Both post-cascade continuations of a reveal/chord — the win branch
(whose `flag_tile` sweep is fully rejected) and the plain branch —
preserve the invariant. -/
theorem Inv_branch (c : Prop) [Decidable c] (G : Game) (A B : ActionResult)
    (h : Inv G) : Inv (if c then (game_won G, A) else (G, B)).1 := by
  split
  · dsimp only
    rw [game_won_eq]
    exact (Inv_set_status _ _).mpr h
  · exact h

/-- A fresh game satisfies the (corrected) neighbour-set invariant. -/
theorem mkGame_Inv (rows cols nBombs : Nat) : Inv (mkGame rows cols nBombs) := by
  refine ⟨fun _ p _ => rfl, ?_⟩
  intro p _ _
  refine ⟨neighbours_nodup rows cols p, List.nodup_nil, ?_, ?_, ?_, ?_⟩
  · intro q hq
    exact ⟨hq, rfl, rfl⟩
  · intro q hq _ _
    exact hq
  · intro q hq
    exact absurd hq (List.not_mem_nil q)
  · intro q _ hf
    exact absurd hf (by simp [mkGame, initTile])

/-- The set form of the invariant implies the count form the claim
states. -/
theorem Inv_count (g : Game) (hinv : Inv g) : count_inv g := by
  intro p hp hv
  obtain ⟨h1, h2, h3, h4, h5, h6⟩ := hinv.2 p hp hv
  constructor
  · have hperm : (g.tiles p).hidden_neighbours.Perm
        ((neighbours g.rows g.cols p).filter
          (fun q => (g.tiles q).is_hidden && !(g.tiles q).is_flagged)) := by
      rw [List.perm_ext_iff_of_nodup h1 ((neighbours_nodup g.rows g.cols p).filter _)]
      intro q
      rw [List.mem_filter]
      constructor
      · intro hq
        rcases h3 q hq with ⟨ha, hb, hc⟩
        rw [hb, hc]
        exact ⟨ha, rfl⟩
      · rintro ⟨ha, hb⟩
        simp only [Bool.and_eq_true, Bool.not_eq_true'] at hb
        exact h4 q ha hb.1 hb.2
    exact hperm.length_eq
  · have hperm : (g.tiles p).flagged_neighbours.Perm
        ((neighbours g.rows g.cols p).filter (fun q => (g.tiles q).is_flagged)) := by
      rw [List.perm_ext_iff_of_nodup h2 ((neighbours_nodup g.rows g.cols p).filter _)]
      intro q
      rw [List.mem_filter]
      constructor
      · intro hq
        rcases h5 q hq with ⟨ha, hb⟩
        exact ⟨ha, hb⟩
      · rintro ⟨ha, hb⟩
        exact h6 q ha hb
    exact hperm.length_eq

end Minesweeper

namespace Minesweeper

/-- A flag-set call (targeting an unflagged cell) preserves the
invariant: rejections leave the state alone, and an accepted flag runs
`Tile.on_flag`, which restores the neighbour sets. -/
theorem flag_tile_Inv (g : Game) (row col : Nat)
    (hf : (g.tiles (row, col)).is_flagged = false) (hinv : Inv g) :
    Inv (flag_tile g row col).1 := by
  unfold flag_tile
  by_cases hvp : is_valid_position g row col = true
  · rw [if_neg (not_not_intro hvp)]
    have hrc : row < g.rows ∧ col < g.cols := by
      unfold is_valid_position at hvp
      simp only [Bool.and_eq_true, decide_eq_true_eq] at hvp
      exact hvp
    simp only []
    by_cases hst : g.game_status = .playing
    · rw [if_neg (not_not_intro hst)]
      by_cases hh : (g.tiles (row, col)).is_hidden = true
      · rw [if_neg (not_not_intro hh)]
        rw [hf]
        simp only [Bool.false_eq_true, if_false]
        refine ⟨?_, ?_⟩
        · intro hbp p hp
          rw [on_flag_value, updateTile_flag_value]
          exact hinv.1 hbp p hp
        · exact flag_step_TInv g.rows g.cols (row, col) g.tiles []
            ⟨hrc.1, hrc.2⟩ hf hinv.2
      · rw [if_pos hh]
        exact hinv
    · rw [if_pos hst]
      exact hinv
  · rw [if_pos hvp]
    exact hinv

end Minesweeper

namespace Minesweeper

/-- A reveal that does not hit a mine preserves the invariant:
rejections leave the state alone, first-click mine placement only
changes `value`/`is_bomb` fields, the cascade maintains the sets
through `Tile.on_reveal`, and a win only changes the status. -/
theorem reveal_tile_Inv (g : Game) (order : List Pos) (row col : Nat)
    (hinv : Inv g)
    (hnl : (reveal_tile g order row col).2.game_status ≠ .lost) :
    Inv (reveal_tile g order row col).1 := by
  unfold reveal_tile at hnl ⊢
  by_cases hvp : is_valid_position g row col = true
  · rw [if_neg (not_not_intro hvp)] at hnl ⊢
    have hrc : row < g.rows ∧ col < g.cols := by
      unfold is_valid_position at hvp
      simp only [Bool.and_eq_true, decide_eq_true_eq] at hvp
      exact hvp
    simp only [] at hnl ⊢
    by_cases hst : g.game_status = .playing
    · rw [if_neg (not_not_intro hst)] at hnl ⊢
      by_cases hbp : g.bombs_placed = true
      · rw [if_neg (not_not_intro hbp)] at hnl ⊢
        by_cases hh : (g.tiles (row, col)).is_hidden = true
        · rw [if_neg (not_not_intro hh)] at hnl ⊢
          by_cases hfl : (g.tiles (row, col)).is_flagged = true
          · rw [if_pos hfl]
            exact hinv
          · rw [if_neg hfl] at hnl ⊢
            split at hnl
            · exact absurd rfl hnl
            · next hres =>
              rw [if_neg hres]
              refine Inv_branch _ _ _ _ ?_
              refine Inv_update_tiles _ _ _ ?_ ?_
              · intro hb
                exact absurd (hbp.symm.trans hb) (by simp)
              · refine reveal_loop_TInv _ _ _ _ _ _ _ ?_ ?_
                · intro q hq
                  rw [List.mem_singleton] at hq
                  subst hq
                  exact mem_positions.mpr ⟨hrc.1, hrc.2⟩
                · exact hinv.2
        · rw [if_pos hh]
          exact hinv
      · rw [if_pos hbp] at hnl ⊢
        have hbpf : g.bombs_placed = false := by
          revert hbp
          cases g.bombs_placed <;> simp
        have hTInv1 : TInv g.rows g.cols (place_bombs_after_first_click g order).tiles := by
          refine TInv_congr_obs g.rows g.cols (place_bombs_tileObs g order) hinv.2 ?_
          intro p hp _
          rw [hinv.1 hbpf p hp]
          simp
        by_cases hh : (({ place_bombs_after_first_click g order with bombs_placed := true
            } : Game).tiles (row, col)).is_hidden = true
        · rw [if_neg (not_not_intro hh)] at hnl ⊢
          by_cases hfl : (({ place_bombs_after_first_click g order with bombs_placed := true
              } : Game).tiles (row, col)).is_flagged = true
          · rw [if_pos hfl]
            exact ⟨fun hb => absurd hb (by simp), hTInv1⟩
          · rw [if_neg hfl] at hnl ⊢
            split at hnl
            · exact absurd rfl hnl
            · next hres =>
              rw [if_neg hres]
              refine Inv_branch _ _ _ _ ?_
              refine Inv_update_tiles _ _ _ ?_ ?_
              · intro hb
                exact absurd hb (by simp)
              · refine reveal_loop_TInv _ _ _ _ _ _ _ ?_ ?_
                · intro q hq
                  rw [List.mem_singleton] at hq
                  subst hq
                  exact mem_positions.mpr ⟨hrc.1, hrc.2⟩
                · exact hTInv1
        · rw [if_pos hh]
          exact ⟨fun hb => absurd hb (by simp), hTInv1⟩
    · rw [if_pos hst]
      exact hinv
  · rw [if_pos hvp]
    exact hinv

end Minesweeper

namespace Minesweeper

/-- A chord that does not hit a mine preserves the invariant. -/
theorem chord_tile_Inv (g : Game) (row col : Nat)
    (hinv : Inv g)
    (hnl : (chord_tile g row col).2.game_status ≠ .lost) :
    Inv (chord_tile g row col).1 := by
  unfold chord_tile at hnl ⊢
  by_cases hvp : is_valid_position g row col = true
  · rw [if_neg (not_not_intro hvp)] at hnl ⊢
    have hrc : row < g.rows ∧ col < g.cols := by
      unfold is_valid_position at hvp
      simp only [Bool.and_eq_true, decide_eq_true_eq] at hvp
      exact hvp
    simp only [] at hnl ⊢
    by_cases hst : g.game_status = .playing
    · rw [if_neg (not_not_intro hst)] at hnl ⊢
      by_cases hnc : (g.tiles (row, col)).is_hidden = true ∨
          ¬ is_numbered (g.tiles (row, col)) = true
      · rw [if_pos hnc]
        exact hinv
      · rw [if_neg hnc] at hnl ⊢
        by_cases hsat : is_satisfied (g.tiles (row, col)) = true
        · rw [if_neg (not_not_intro hsat)] at hnl ⊢
          split at hnl
          · exact absurd rfl hnl
          · next hres =>
            rw [if_neg hres]
            refine Inv_branch _ _ _ _ ?_
            refine Inv_update_tiles _ _ _ ?_ ?_
            · intro hb
              exfalso
              have hnum : is_numbered (g.tiles (row, col)) = true :=
                not_not.mp (not_or.mp hnc).2
              have hval := hinv.1 hb (row, col) (mem_positions.mpr ⟨hrc.1, hrc.2⟩)
              simp [is_numbered, hval] at hnum
            · refine reveal_batch_loop_TInv _ _ _ _ _ _ _ _ ?_ ?_
              · intro q hq
                exact mem_positions_of_mem_neighbours hrc.1 hrc.2 (List.mem_filter.mp hq).1
              · exact hinv.2
        · rw [if_pos hsat]
          exact hinv
    · rw [if_pos hst]
      exact hinv
  · rw [if_pos hvp]
    exact hinv

end Minesweeper

namespace Minesweeper

/-- C1 (amended): for every in-bounds cell with `value != 0`, the
`hidden_neighbours` set holds exactly its neighbours that are hidden and
unflagged, and the `flagged_neighbours` set exactly its flagged
neighbours — membership is independent of the neighbour's own value — so
`len(hidden_neighbours)` and `len(flagged_neighbours)` equal the live
counts of hidden-unflagged and flagged neighbours.  This holds of a
fresh game and is preserved by every flag-set call, every reveal that
does not end in a loss, and every chord that does not end in a loss.
(The original claim fails: the sets count any-valued neighbours, not
non-zero-valued ones, flag-clear corrupts the sets through the
`remove_flag` bug, and a loss reveals bombs without `on_reveal`.) -/
theorem C1_amended :
    (∀ rows cols nBombs,
        Inv (mkGame rows cols nBombs) ∧ count_inv (mkGame rows cols nBombs)) ∧
    (∀ g : Game, Inv g → count_inv g) ∧
    (∀ (g : Game) (row col : Nat), Inv g → (g.tiles (row, col)).is_flagged = false →
        Inv (flag_tile g row col).1 ∧ count_inv (flag_tile g row col).1) ∧
    (∀ (g : Game) (order : List Pos) (row col : Nat), Inv g →
        (reveal_tile g order row col).2.game_status ≠ .lost →
        Inv (reveal_tile g order row col).1 ∧ count_inv (reveal_tile g order row col).1) ∧
    (∀ (g : Game) (row col : Nat), Inv g →
        (chord_tile g row col).2.game_status ≠ .lost →
        Inv (chord_tile g row col).1 ∧ count_inv (chord_tile g row col).1) := by
  refine ⟨?_, Inv_count, ?_, ?_, ?_⟩
  · intro rows cols nBombs
    exact ⟨mkGame_Inv rows cols nBombs, Inv_count _ (mkGame_Inv rows cols nBombs)⟩
  · intro g row col hinv hf
    have h := flag_tile_Inv g row col hf hinv
    exact ⟨h, Inv_count _ h⟩
  · intro g order row col hinv hnl
    have h := reveal_tile_Inv g order row col hinv hnl
    exact ⟨h, Inv_count _ h⟩
  · intro g row col hinv hnl
    have h := chord_tile_Inv g row col hinv hnl
    exact ⟨h, Inv_count _ h⟩

/-- The invariant theorem applied on a concrete 2×2 board: to an
accepted flag, an accepted (first-click) reveal, and a rejected chord. -/
theorem C1_amended_witness :
    count_inv (mkGame 2 2 1) ∧
    (Inv (flag_tile (mkGame 2 2 1) 0 0).1 ∧ count_inv (flag_tile (mkGame 2 2 1) 0 0).1) ∧
    (Inv (reveal_tile (mkGame 2 2 1) [] 1 1).1 ∧
      count_inv (reveal_tile (mkGame 2 2 1) [] 1 1).1) ∧
    (Inv (chord_tile (mkGame 2 2 1) 0 0).1 ∧ count_inv (chord_tile (mkGame 2 2 1) 0 0).1) :=
  ⟨C1_amended.2.1 (mkGame 2 2 1) (by unfold Inv TInv TileOkT; decide),
   C1_amended.2.2.1 (mkGame 2 2 1) 0 0 (by unfold Inv TInv TileOkT; decide) (by decide),
   C1_amended.2.2.2.1 (mkGame 2 2 1) [] 1 1 (by unfold Inv TInv TileOkT; decide) (by decide),
   C1_amended.2.2.2.2 (mkGame 2 2 1) 0 0 (by unfold Inv TInv TileOkT; decide) (by decide)⟩

end Minesweeper

namespace Minesweeper

/-- A rejected flag, chord and reveal, and a flagged-target reveal, on
concrete boards. -/
theorem C5_amended_witness :
    (flag_tile (mkGame 1 2 1) 5 0).1 = mkGame 1 2 1 ∧
    (chord_tile (mkGame 1 2 1) 0 0).1 = mkGame 1 2 1 ∧
    (reveal_tile (mkGame 1 2 1) [] 9 9).1 = mkGame 1 2 1 ∧
    (reveal_tile (flag_tile (mkGame 2 2 1) 0 0).1 [] 0 0).1.game_status =
      (flag_tile (mkGame 2 2 1) 0 0).1.game_status ∧
    (reveal_tile (flag_tile (mkGame 2 2 1) 0 0).1 [] 0 0).1.revealed_count =
      (flag_tile (mkGame 2 2 1) 0 0).1.revealed_count :=
  ⟨C5_amended.1 (mkGame 1 2 1) 5 0 (by decide),
   C5_amended.2.1 (mkGame 1 2 1) 0 0 (by decide),
   C5_amended.2.2.1 (mkGame 1 2 1) [] 9 9 (by decide),
   (C5_amended.2.2.2 (flag_tile (mkGame 2 2 1) 0 0).1 [] 0 0 (by decide)).2.1,
   (C5_amended.2.2.2 (flag_tile (mkGame 2 2 1) 0 0).1 [] 0 0 (by decide)).2.2.1⟩

/-- First click at the corner of a fresh 4×4 board with two mines, the
shuffle leaving the placeable list in its original order: exactly two
mines land, and the clicked corner is mine-free. -/
theorem C6_first_reveal_placement_witness :
    ((positions 4 4).filter
      (fun p => ((reveal_tile (mkGame 4 4 2) (placeable_tiles (mkGame 4 4 2) (0, 0)) 0 0).1.tiles
        p).is_bomb)).length = 2 ∧
    ((reveal_tile (mkGame 4 4 2) (placeable_tiles (mkGame 4 4 2) (0, 0)) 0 0).1.tiles
      (0, 0)).is_bomb = false :=
  ⟨(C6_first_reveal_placement (mkGame 4 4 2) (placeable_tiles (mkGame 4 4 2) (0, 0)) 0 0
      (by decide) rfl rfl (List.Perm.refl _) (by decide) (by decide)).1,
   (C6_first_reveal_placement (mkGame 4 4 2) (placeable_tiles (mkGame 4 4 2) (0, 0)) 0 0
      (by decide) rfl rfl (List.Perm.refl _) (by decide) (by decide)).2.2.1⟩

/-- A 2×2 board whose revealed corner `(0,0)` has value 2, two flagged
bomb neighbours, and `(1,1)` as its only hidden unflagged neighbour. -/
def c9Board : Game :=
  { rows := 2, cols := 2, bomb_count := 2,
    tiles := fun p =>
      if p = ((0, 0) : Pos) then
        { value := some 2, is_hidden := false, is_flagged := false, is_bomb := false,
          hidden_neighbours := [(1, 1)], flagged_neighbours := [(0, 1), (1, 0)] }
      else if p = ((1, 1) : Pos) then
        { value := some 2, is_hidden := true, is_flagged := false, is_bomb := false,
          hidden_neighbours := [], flagged_neighbours := [(0, 1), (1, 0)] }
      else if p = ((0, 1) : Pos) then
        { value := none, is_hidden := true, is_flagged := true, is_bomb := true,
          hidden_neighbours := [(1, 1)], flagged_neighbours := [(1, 0)] }
      else
        { value := none, is_hidden := true, is_flagged := true, is_bomb := true,
          hidden_neighbours := [(1, 1)], flagged_neighbours := [(0, 1)] },
    game_status := .playing, flagged_count := 2, revealed_count := 1,
    non_bomb_tiles_count := 2, bombs_placed := true }

/-- Chording the satisfied corner of `c9Board` reveals exactly `(1,1)`. -/
theorem C9_amended_witness :
    (chord_tile c9Board 0 0).2.revealed = [(1, 1)] ∧
    ((chord_tile c9Board 0 0).1.tiles (1, 1)).is_hidden = false ∧
    ((chord_tile c9Board 0 0).1.tiles (0, 1)).is_hidden = (c9Board.tiles (0, 1)).is_hidden :=
  ⟨(C9_amended c9Board 0 0 (1, 1) (by decide) rfl (by decide) (by decide) (by decide)
      (by decide) (by decide) (by decide) (by decide)).1,
   (C9_amended c9Board 0 0 (1, 1) (by decide) rfl (by decide) (by decide) (by decide)
      (by decide) (by decide) (by decide) (by decide)).2.1,
   (C9_amended c9Board 0 0 (1, 1) (by decide) rfl (by decide) (by decide) (by decide)
      (by decide) (by decide) (by decide) (by decide)).2.2 (0, 1) (by decide)⟩

/-- A 1×2 board whose revealed cell `(0,0)` has value 1 and one flagged
neighbour, so it is satisfied with no hidden unflagged neighbour left. -/
def c10Board : Game :=
  { rows := 1, cols := 2, bomb_count := 1,
    tiles := fun p =>
      if p = ((0, 0) : Pos) then
        { value := some 1, is_hidden := false, is_flagged := false, is_bomb := false,
          hidden_neighbours := [], flagged_neighbours := [(0, 1)] }
      else
        { value := none, is_hidden := true, is_flagged := true, is_bomb := true,
          hidden_neighbours := [], flagged_neighbours := [] },
    game_status := .playing, flagged_count := 1, revealed_count := 0,
    non_bomb_tiles_count := 1, bombs_placed := true }

/-- Chording the satisfied, fully-flagged cell of `c10Board` is a
successful no-op. -/
theorem C10_chord_satisfied_noop_witness :
    (chord_tile c10Board 0 0).1 = c10Board ∧
    (chord_tile c10Board 0 0).2.result = "chorded" ∧
    (chord_tile c10Board 0 0).2.newly_revealed_count = 0 ∧
    (chord_tile c10Board 0 0).2.revealed = [] ∧
    (chord_tile c10Board 0 0).2.neighbours_updated = [] :=
  C10_chord_satisfied_noop c10Board 0 0 (by decide) rfl (by decide) (by decide)
    (by decide) (by decide) (by decide)

end Minesweeper
